import Mathlib

/-! Leader side of the Harmony consensus round.

A shallow embedding of `consensus/consensus_leader.go` (the leader's handling of
PREPARE and COMMIT messages, the start of a round and the membership gate) and
of the content header functions of `message/message.go`, together with the
theorems that settle the specification's statements about them.

Conventions of the embedding

* A Go `map[uint32]*bls.Sign` is an association list with one pair per key, in
  insertion order; `len` of the map is the length of the list.
* A participation mask is a natural number read as a bit vector: bit `i` stands
  for the validator at canonical index `i` of `PublicKeys`.
* The BLS library, protobuf and RLP are outside the repository, and
  `core/types` and `crypto/bls` are not among the sources: their functions are
  the fields of `Env`, and every theorem holds for all of them.
* A run-time fault of the Go code (a nil dereference) is recorded in the
  `fault` flag of the `Outcome`, together with the sends made before it.
-/

namespace Harmony

/-! ## Data model -/

abbrev Bytes := List Nat

/-- A `bls.PublicKey`, kept abstract: only equality of keys is used. -/
abbrev PublicKey := Nat

/-- A `bls.SecretKey`, kept abstract. -/
abbrev SecretKey := Nat

/-- A `bls.Sign`, kept abstract as the data the library holds for it. -/
abbrev Sign := List Nat

/-- Modelled from the spec: the round states, declared in `consensus.go` (absent
from the sources) and listed by the spec in the order
Finished, AnnounceDone, PreparedDone, CommittedDone; `Finished` is the initial
state. The leader compares them with `<` (line 182). -/
inductive State where
  | Finished
  | AnnounceDone
  | PreparedDone
  | CommittedDone
  deriving DecidableEq, Repr

/-- Position of a state in the declaration order, the integer Go compares. -/
def State.toNat : State → Nat
  | .Finished => 0
  | .AnnounceDone => 1
  | .PreparedDone => 2
  | .CommittedDone => 3

/-- Modelled from the spec: the five message types of the envelope; `UNKNOWN`
stands for every other value of the type field. -/
inductive MessageType where
  | UNKNOWN
  | ANNOUNCE
  | PREPARE
  | PREPARED
  | COMMIT
  | COMMITTED
  deriving DecidableEq, Repr

/-- Modelled from the spec: the consensus message envelope
(`consensus_proto.Message`), with the fields the spec lists. -/
structure Message where
  type : MessageType
  consensusID : Nat
  senderID : Nat
  blockHash : Bytes
  payload : Bytes
  signature : Bytes
  deriving DecidableEq, Repr

/-- A `p2p.Peer`; the leader reads only its public key. -/
structure Peer where
  PubKey : PublicKey
  deriving DecidableEq, Repr

/-- A decoded `types.Block` as the leader sees it at finalization: its content
and the four proof fields of its header, as the decoding gave them. -/
structure Block where
  content : Bytes
  PrepareSignature : Bytes
  PrepareBitmap : Bytes
  CommitSignature : Bytes
  CommitBitmap : Bytes
  deriving DecidableEq, Repr

/-- The candidate block handed to `startConsensus`, given by the results of the
two calls made on it: `newBlock.Hash()` and `rlp.EncodeToBytes(newBlock)`
(`none` when encoding fails). -/
structure NewBlock where
  hash : Bytes
  encoded : Option Bytes
  deriving DecidableEq, Repr

/-! ### Signature maps -/

/-- A `map[uint32]*bls.Sign`. -/
abbrev SigMap := List (Nat × Sign)

/-- The `_, ok := m[k]` test. -/
def SigMap.contains (m : SigMap) (k : Nat) : Bool :=
  m.any (fun e => e.1 == k)

/-- The assignment `m[k] = v`: replaces the value of an existing key, adds a new
pair otherwise. -/
def SigMap.set (m : SigMap) (k : Nat) (v : Sign) : SigMap :=
  if m.contains k then m.map (fun e => if e.1 == k then (k, v) else e)
  else m ++ [(k, v)]

/-- The signatures held by the map, as `GetPrepareSigsArray` and
`GetCommitSigsArray` collect them. -/
def SigMap.sigs (m : SigMap) : List Sign :=
  m.map Prod.snd

/-! ### Participation masks -/

/-- Modelled from the spec: the participation mask of `crypto/bls` (absent from
the sources): one bit per validator, indexed by the canonical order of the
public-key set. The bit vector is held as a natural number. -/
abbrev Mask := Nat

/-- Canonical index of a key: its first position in the key list, if any. -/
def keyIndex (publics : List PublicKey) (key : PublicKey) : Option Nat :=
  if publics.indexOf key < publics.length then some (publics.indexOf key) else none

/-- Modelled from the spec: `Mask.SetKey(key, true)` sets the bit of the
validator that holds `key`; a key outside the set has no bit and leaves the
mask as it is (the leader ignores the error). -/
def Mask.SetKey (publics : List PublicKey) (m : Mask) (key : PublicKey) : Mask :=
  match keyIndex publics key with
  | some i => m ||| (2 ^ i)
  | none => m

/-- Modelled from the spec: the bytes of a mask (`Mask.Bitmap`), fixed width for
`n` validators, bit `i` in byte `i / 8` at position `i % 8` (little-endian
within each byte). -/
def Mask.Bitmap (n : Nat) (m : Mask) : Bytes :=
  (List.range ((n + 7) / 8)).map (fun j => (m >>> (8 * j)) % 256)

/-! ### The consensus object -/

/-- The fields of the `Consensus` struct that the leader code reads or writes.
`consensusID` is a `uint32` (spec, section 6): the increment of line 293 wraps
at `2^32`. `blockHash` is a 32-byte array. `OnConsensusDone` tells whether the
callback of that name is set; called while nil, at line 295, it faults. -/
structure Consensus where
  state : State
  prepareSigs : SigMap
  commitSigs : SigMap
  prepareBitmap : Mask
  commitBitmap : Mask
  aggregatedPrepareSig : Option Sign
  aggregatedCommitSig : Option Sign
  consensusID : Nat
  blockHash : Bytes
  block : Bytes
  nodeID : Nat
  priKey : SecretKey
  pubKey : PublicKey
  PublicKeys : List PublicKey
  validators : List (Nat × Peer)
  MinPeers : Int
  OnConsensusDone : Bool
  deriving DecidableEq, Repr

/-- What the leader sends out of the consensus object: a broadcast to the
validators (through the group channel or peer by peer, by the transport flag),
the offer of the finalized block on `VerifiedNewBlock` (a non-blocking send),
the dump of the block to the explorer storage, the `OnConsensusDone` callback,
and the send on `ReadySignal`, which is taken to find its reader. Of the log
lines only the one of line 269, on a failed decode, is recorded, since the
specification's error table speaks of it; the other log lines, the sleeps and
the metrics report are not recorded. -/
inductive Effect where
  | broadcast (viaGroups : Bool) (msg : Message)
  | log (text : String)
  | verifiedNewBlock (b : Block)
  | dump (b : Block) (consensusID : Nat)
  | onConsensusDone (b : Block)
  | readySignal
  deriving DecidableEq, Repr

/-- Result of one call on the consensus object: the object afterwards, the
sends made in order, and whether the call ended in a run-time fault instead of
returning. -/
structure Outcome where
  consensus : Consensus
  out : List Effect
  fault : Bool
  deriving DecidableEq, Repr

/-- The functions of the libraries the leader calls (BLS, protobuf, RLP) and
the global transport flag. `NewMask` is the constructor of `crypto/bls` called
at line 60 with the public keys and the leader's key: which bits a fresh mask
carries is left to it. -/
structure Env where
  Deserialize : Bytes → Option Sign
  Serialize : Sign → Bytes
  VerifyHash : Sign → PublicKey → Bytes → Bool
  SignHash : SecretKey → Bytes → Sign
  AggregateSig : List Sign → Sign
  verifyMessageSig : PublicKey → Message → Bool
  signMessage : SecretKey → Message → Bytes
  Unmarshal : Bytes → Message
  DecodeBytes : Bytes → Option Block
  UseLibP2P : Bool
  NewMask : List PublicKey → PublicKey → Mask

/-! ## Operations absent from the sources -/

/-- Modelled from the spec: `getValidatorPeerByID` (in `consensus.go`, absent
from the sources) resolves a validator ID to the entry of the membership table;
an unknown ID gives no peer (a nil pointer in Go). -/
def Consensus.getValidatorPeerByID (consensus : Consensus) (validatorID : Nat) : Option Peer :=
  consensus.validators.lookup validatorID

/-- Modelled from the spec: `checkConsensusMessage` (in `consensus.go`, absent
from the sources) fails on a bad envelope signature, a consensus ID other than
the current one, or a block hash other than the current one. The result is
`true` when the Go function returns a nil error. -/
def Consensus.checkConsensusMessage (env : Env) (consensus : Consensus) (message : Message)
    (publicKey : PublicKey) : Bool :=
  env.verifyMessageSig publicKey message
    && message.consensusID == consensus.consensusID
    && message.blockHash == consensus.blockHash

/-- The zero value of the 32-byte `blockHash` array. -/
def zeroHash : Bytes :=
  List.replicate 32 0

/-- Modelled from the spec: `ResetState` (in `consensus.go`, absent from the
sources) returns the state to Finished and clears both signature maps, both
bitmaps, both aggregates, and `block` and `blockHash` (spec 4.3). A cleared
bitmap is a fresh mask, built the way line 60 builds one, from the public keys
and the leader's key. The increment of `consensusID` is the caller's (line 293
of the leader). -/
def Consensus.ResetState (env : Env) (consensus : Consensus) : Consensus :=
  { consensus with
    state := State.Finished
    prepareSigs := []
    commitSigs := []
    prepareBitmap := env.NewMask consensus.PublicKeys consensus.pubKey
    commitBitmap := env.NewMask consensus.PublicKeys consensus.pubKey
    aggregatedPrepareSig := none
    aggregatedCommitSig := none
    block := []
    blockHash := zeroHash }

/-- The text of the log line of line 269. -/
def decodeFailureText : String :=
  "failed to construct the new block after consensus"

/-- The array of the collected prepare signatures. -/
def Consensus.GetPrepareSigsArray (consensus : Consensus) : List Sign :=
  consensus.prepareSigs.sigs

/-- The array of the collected commit signatures. -/
def Consensus.GetCommitSigsArray (consensus : Consensus) : List Sign :=
  consensus.commitSigs.sigs

/-- Signs the envelope of an outgoing message with the leader's key. -/
def Consensus.signed (env : Env) (consensus : Consensus) (msg : Message) : Message :=
  { msg with signature := env.signMessage consensus.priKey msg }

/-- Modelled from the spec: `constructAnnounceMessage` builds the ANNOUNCE
envelope, whose payload is the encoded candidate block. -/
def Consensus.constructAnnounceMessage (env : Env) (consensus : Consensus) : Message :=
  consensus.signed env
    { type := MessageType.ANNOUNCE
      consensusID := consensus.consensusID
      senderID := consensus.nodeID
      blockHash := consensus.blockHash
      payload := consensus.block
      signature := [] }

/-- Modelled from the spec: `constructPreparedMessage` aggregates the collected
prepare signatures and builds the PREPARED envelope with payload
`aggregatedPrepareSig ‖ prepareBitmap`; it returns the message and the
aggregate. -/
def Consensus.constructPreparedMessage (env : Env) (consensus : Consensus) : Message × Sign :=
  let aggSig := env.AggregateSig consensus.GetPrepareSigsArray
  (consensus.signed env
    { type := MessageType.PREPARED
      consensusID := consensus.consensusID
      senderID := consensus.nodeID
      blockHash := consensus.blockHash
      payload := env.Serialize aggSig
        ++ Mask.Bitmap consensus.PublicKeys.length consensus.prepareBitmap
      signature := [] }, aggSig)

/-- Modelled from the spec: `constructCommittedMessage` aggregates the collected
commit signatures and builds the COMMITTED envelope with payload
`aggregatedCommitSig ‖ commitBitmap`; it returns the message and the
aggregate. -/
def Consensus.constructCommittedMessage (env : Env) (consensus : Consensus) : Message × Sign :=
  let aggSig := env.AggregateSig consensus.GetCommitSigsArray
  (consensus.signed env
    { type := MessageType.COMMITTED
      consensusID := consensus.consensusID
      senderID := consensus.nodeID
      blockHash := consensus.blockHash
      payload := env.Serialize aggSig
        ++ Mask.Bitmap consensus.PublicKeys.length consensus.commitBitmap
      signature := [] }, aggSig)

/-! ## The leader, from `consensus_leader.go` -/

/-- Lines 345-350: whether the shard has enough validators. -/
def Consensus.HasEnoughValidators (consensus : Consensus) : Bool :=
  if (consensus.PublicKeys.length : Int) < consensus.MinPeers then false else true

/-- Lines 103-132: starts a round for a block and announces it. -/
def Consensus.startConsensus (env : Env) (consensus : Consensus) (newBlock : NewBlock) : Outcome :=
  -- Copy over block hash and block header data
  let c1 := { consensus with blockHash := newBlock.hash }
  match newBlock.encoded with
  | none => ⟨c1, [], false⟩
  | some encodedBlock =>
    let c2 := { c1 with block := encodedBlock }
    let msgToSend := c2.constructAnnounceMessage env
    -- Set state to AnnounceDone
    let c3 := { c2 with state := State.AnnounceDone }
    -- Leader sign the block hash itself
    let c4 := { c3 with
      prepareSigs := c3.prepareSigs.set c3.nodeID (env.SignHash c3.priKey c3.blockHash) }
    ⟨c4, [Effect.broadcast env.UseLibP2P msgToSend], false⟩

/-- Lines 135-202: processes the prepare message sent from a validator. The
peer returned by `getValidatorPeerByID` is dereferenced at line 147 without a
nil check: with no peer the call faults there. -/
def Consensus.processPrepareMessage (env : Env) (consensus : Consensus) (message : Message) :
    Outcome :=
  let validatorID := message.senderID
  let prepareSig := message.payload
  match consensus.getValidatorPeerByID validatorID with
  | none => ⟨consensus, [], true⟩
  | some validatorPeer =>
    if !consensus.checkConsensusMessage env message validatorPeer.PubKey then
      ⟨consensus, [], false⟩
    -- proceed only when the message is not received before
    else if consensus.prepareSigs.contains validatorID then
      ⟨consensus, [], false⟩
    else if consensus.prepareSigs.length ≥ (consensus.PublicKeys.length * 2) / 3 + 1 then
      ⟨consensus, [], false⟩
    else
      -- Check BLS signature for the multi-sig
      match env.Deserialize prepareSig with
      | none => ⟨consensus, [], false⟩
      | some sign =>
        if !env.VerifyHash sign validatorPeer.PubKey consensus.blockHash then
          ⟨consensus, [], false⟩
        else
          let c1 := { consensus with
            prepareSigs := consensus.prepareSigs.set validatorID sign
            prepareBitmap :=
              Mask.SetKey consensus.PublicKeys consensus.prepareBitmap validatorPeer.PubKey }
          if c1.prepareSigs.length ≥ (c1.PublicKeys.length * 2) / 3 + 1
              ∧ c1.state.toNat < State.PreparedDone.toNat then
            -- Construct and broadcast prepared message
            let (msgToSend, aggSig) := c1.constructPreparedMessage env
            let c2 := { c1 with aggregatedPrepareSig := some aggSig }
            -- Set state to targetState
            let c3 := { c2 with state := State.PreparedDone }
            -- Leader sign the multi-sig and bitmap (for commit phase)
            let multiSigAndBitmap :=
              env.Serialize aggSig ++ Mask.Bitmap c3.PublicKeys.length c3.prepareBitmap
            let c4 := { c3 with
              commitSigs := c3.commitSigs.set c3.nodeID (env.SignHash c3.priKey multiSigAndBitmap) }
            ⟨c4, [Effect.broadcast env.UseLibP2P msgToSend], false⟩
          else
            ⟨c1, [], false⟩

/-- Lines 205-303: processes the commit message sent from a validator. The
function has the nil dereference of `processPrepareMessage` at line 214. At
the commit quorum three more faults are possible. After a failed decode
(logged at line 269, with no return) `blockObj` is the zero value, whose
header pointer is nil, and line 273 calls `blockObj.Header()`, which
dereferences it: the call faults there. Line 273 also serializes
`consensus.aggregatedPrepareSig`, which is nil until the PREPARED branch has
set it, and calling `Serialize` through a nil `*bls.Sign` faults. Line 295
calls `OnConsensusDone`, which faults while the callback is nil. `Header()` of
`core/types` hands out a copy of the header, so the four writes of lines
273-276 go into copies and the block offered, dumped and passed to the
callback is the decoded one. The increment of line 293 is that of a
`uint32`. -/
def Consensus.processCommitMessage (env : Env) (consensus : Consensus) (message : Message) :
    Outcome :=
  let validatorID := message.senderID
  let commitSig := message.payload
  match consensus.getValidatorPeerByID validatorID with
  | none => ⟨consensus, [], true⟩
  | some validatorPeer =>
    if !consensus.checkConsensusMessage env message validatorPeer.PubKey then
      ⟨consensus, [], false⟩
    -- proceed only when the message is not received before
    else if consensus.commitSigs.contains validatorID then
      ⟨consensus, [], false⟩
    else if consensus.commitSigs.length ≥ (consensus.PublicKeys.length * 2) / 3 + 1 then
      ⟨consensus, [], false⟩
    else
      -- Verify the signature on prepare multi-sig and bitmap is correct
      match env.Deserialize commitSig with
      | none => ⟨consensus, [], false⟩
      | some sign =>
        let aggSig := env.AggregateSig consensus.GetPrepareSigsArray
        if !env.VerifyHash sign validatorPeer.PubKey
            (env.Serialize aggSig
              ++ Mask.Bitmap consensus.PublicKeys.length consensus.prepareBitmap) then
          ⟨consensus, [], false⟩
        else
          let c1 := { consensus with
            commitSigs := consensus.commitSigs.set validatorID sign
            -- Set the bitmap indicating that this validator signed.
            commitBitmap :=
              Mask.SetKey consensus.PublicKeys consensus.commitBitmap validatorPeer.PubKey }
          if c1.commitSigs.length ≥ (c1.PublicKeys.length * 2) / 3 + 1
              ∧ c1.state ≠ State.CommittedDone then
            -- Construct and broadcast committed message
            let (msgToSend, aggSig) := c1.constructCommittedMessage env
            let c2 := { c1 with aggregatedCommitSig := some aggSig }
            let sent := [Effect.broadcast env.UseLibP2P msgToSend]
            match env.DecodeBytes c2.block with
            | none => ⟨c2, sent ++ [Effect.log decodeFailureText], true⟩
            | some decoded =>
              -- Sign the block
              match c2.aggregatedPrepareSig with
              | none => ⟨c2, sent, true⟩
              | some _ =>
                let blockObj : Block := decoded
                let c3 := { c2 with state := State.CommittedDone }
                let published := [Effect.verifiedNewBlock blockObj,
                                  Effect.dump blockObj c3.consensusID]
                -- Reset state to Finished, and clear other data.
                let c4 := { c3.ResetState env with
                  consensusID := (c3.consensusID + 1) % 4294967296 }
                if !c4.OnConsensusDone then ⟨c4, sent ++ published, true⟩
                else
                  ⟨c4, sent ++ published ++ [Effect.onConsensusDone blockObj,
                                             Effect.readySignal], false⟩
          else
            ⟨c1, [], false⟩

/-- Lines 84-100: dispatches a consensus message for the leader. -/
def Consensus.ProcessMessageLeader (env : Env) (consensus : Consensus) (payload : Bytes) :
    Outcome :=
  let message := env.Unmarshal payload
  match message.type with
  | MessageType.PREPARE => consensus.processPrepareMessage env message
  | MessageType.COMMIT => consensus.processCommitMessage env message
  | _ => ⟨consensus, [], false⟩

/-- Lines 40-75, one candidate block taken by `WaitForNewBlock`: while the
shard has too few validators, or the previous round is not finished, the
coordinator sleeps and nothing changes; otherwise it resets the state and
starts the round. The eviction of offline peers (line 43) and the barrier on
epoch blocks (lines 53-65) are outside the embedding: the validator view is
fixed while the leader runs. -/
def Consensus.WaitForNewBlock (env : Env) (consensus : Consensus) (newBlock : NewBlock) :
    Outcome :=
  if !consensus.HasEnoughValidators then ⟨consensus, [], false⟩
  else if consensus.state = State.Finished then
    (consensus.ResetState env).startConsensus env newBlock
  else ⟨consensus, [], false⟩

/-! ## The p2p content header, from `message/message.go`

The content of a p2p message is one byte of message category, one byte of
action type and the payload (lines 7-23). -/

namespace P2P

/-- Line 25. -/
def NODE_TYPE_BYTES : Nat := 1

/-- Line 26. -/
def ACTION_TYPE_BYTES : Nat := 1

/-- Line 30: the category of messages, a byte. -/
abbrev MessageCategory := Nat

/-- Lines 54-59: gets the message category from the p2p message content. The
index of line 58 is read with a default, which the guard of line 55 never lets
apply. -/
def GetMessageCategory (message : Bytes) : Except String MessageCategory :=
  if message.length < NODE_TYPE_BYTES then
    Except.error "Failed to get node type: no data available."
  else
    Except.ok (message.getD (NODE_TYPE_BYTES - 1) 0)

/-- Lines 62-67: gets the action type from the p2p message content. -/
def GetMessageType (message : Bytes) : Except String Nat :=
  if message.length < NODE_TYPE_BYTES + ACTION_TYPE_BYTES then
    Except.error "Failed to get action type: no data available."
  else
    Except.ok (message.getD (NODE_TYPE_BYTES + ACTION_TYPE_BYTES - 1) 0)

/-- Lines 70-75: gets the node message payload from the p2p message content. -/
def GetMessagePayload (message : Bytes) : Except String Bytes :=
  if message.length < NODE_TYPE_BYTES + ACTION_TYPE_BYTES then
    Except.error "Failed to get message payload: no data available."
  else
    Except.ok (message.drop (NODE_TYPE_BYTES + ACTION_TYPE_BYTES))

/-- Whether a call returned an error. -/
def failed {α : Type} : Except String α → Bool
  | Except.error _ => true
  | Except.ok _ => false

end P2P

/-! ## Executions -/

/-- What reaches the leader: a candidate block from the block channel, or the
payload of a consensus message from the network. -/
inductive Input where
  | block (newBlock : NewBlock)
  | payload (bytes : Bytes)
  deriving DecidableEq, Repr

/-- One input handled by the leader. -/
def Consensus.step (env : Env) (consensus : Consensus) : Input → Outcome
  | .block newBlock => consensus.WaitForNewBlock env newBlock
  | .payload bytes => consensus.ProcessMessageLeader env bytes

/-- A sequence of inputs handled in order; the sends are collected, and the run
ends at the first fault. -/
def Consensus.run (env : Env) (consensus : Consensus) : List Input → Outcome
  | [] => ⟨consensus, [], false⟩
  | i :: rest =>
    let o := consensus.step env i
    if o.fault then o
    else
      let o2 := Consensus.run env o.consensus rest
      ⟨o2.consensus, o.out ++ o2.out, o2.fault⟩

/-- The leader objects an execution can reach: a freshly reset object, and
whatever a reachable object becomes by handling one input without a fault. -/
inductive Reachable (env : Env) : Consensus → Prop where
  | reset (consensus : Consensus) : Reachable env (consensus.ResetState env)
  | step (consensus : Consensus) (i : Input) :
      Reachable env consensus → (consensus.step env i).fault = false →
      Reachable env (consensus.step env i).consensus

/-! ## A concrete instance

A small signature scheme and wire format, used to evaluate the leader on
explicit inputs: the public key of a secret key is the same number, a
signature over `msg` under key `k` is `[k, length of msg, sum of msg]`, and a
message travels as
`[type, consensusID, senderID, hash length, payload length] ++ hash ++ payload
++ signature`. A fresh mask is all clear. -/

namespace Sample

/-- Decodes the type field of the sample wire format. -/
def typeOfCode : Nat → MessageType
  | 1 => MessageType.ANNOUNCE
  | 2 => MessageType.PREPARE
  | 3 => MessageType.PREPARED
  | 4 => MessageType.COMMIT
  | 5 => MessageType.COMMITTED
  | _ => MessageType.UNKNOWN

/-- Encodes the type field of the sample wire format. -/
def codeOfType : MessageType → Nat
  | MessageType.UNKNOWN => 0
  | MessageType.ANNOUNCE => 1
  | MessageType.PREPARE => 2
  | MessageType.PREPARED => 3
  | MessageType.COMMIT => 4
  | MessageType.COMMITTED => 5

/-- The bytes an envelope signature covers:
type, consensusID, senderID, blockHash, payload. -/
def envelope (msg : Message) : Bytes :=
  [codeOfType msg.type, msg.consensusID, msg.senderID] ++ msg.blockHash ++ msg.payload

/-- The sample signature of `msg` under `key`. -/
def sign (key : SecretKey) (msg : Bytes) : Sign :=
  [key, msg.length, msg.sum]

/-- Decoder of the sample wire format; missing fields stay at their zero
value. -/
def unmarshal : Bytes → Message
  | t :: cid :: sid :: h :: n :: rest =>
    { type := typeOfCode t, consensusID := cid, senderID := sid
      blockHash := rest.take h
      payload := (rest.drop h).take n, signature := (rest.drop h).drop n }
  | _ =>
    { type := MessageType.UNKNOWN, consensusID := 0, senderID := 0, blockHash := []
      payload := [], signature := [] }

/-- Encoder of the sample wire format. -/
def marshal (msg : Message) : Bytes :=
  [codeOfType msg.type, msg.consensusID, msg.senderID, msg.blockHash.length,
    msg.payload.length] ++ msg.blockHash ++ msg.payload ++ msg.signature

/-- The sample libraries. -/
def env : Env where
  Deserialize := fun bytes => if bytes = [] then none else some bytes
  Serialize := fun s => s
  VerifyHash := fun s key msg => s == sign key msg
  SignHash := sign
  AggregateSig := fun sigs => sigs.length :: sigs.map List.sum
  verifyMessageSig := fun key msg => msg.signature == sign key (envelope msg)
  signMessage := fun key msg => sign key (envelope msg)
  Unmarshal := unmarshal
  DecodeBytes := fun bytes => if bytes = [] then none else some ⟨bytes, [], [], [], []⟩
  UseLibP2P := false
  NewMask := fun _ _ => 0

/-- The sample libraries with the other construction of a fresh mask: it
carries the bit of the key it is built for. -/
def envOwnBit : Env :=
  { env with NewMask := fun publics key => Mask.SetKey publics 0 key }

/-- A freshly reset leader: node 0 with key 10, three validators with IDs 1, 2,
3 and keys 11, 12, 13, the leader's key last in `PublicKeys` (N = 4, quorum 3),
state Finished, nothing collected, no block. -/
def leader : Consensus where
  state := State.Finished
  prepareSigs := []
  commitSigs := []
  prepareBitmap := 0
  commitBitmap := 0
  aggregatedPrepareSig := none
  aggregatedCommitSig := none
  consensusID := 0
  blockHash := zeroHash
  block := []
  nodeID := 0
  priKey := 10
  pubKey := 10
  PublicKeys := [11, 12, 13, 10]
  validators := [(1, ⟨11⟩), (2, ⟨12⟩), (3, ⟨13⟩)]
  MinPeers := 3
  OnConsensusDone := true

/-- A message of the given type from validator `id`, carrying the payload and
an envelope signature made with `signer`. -/
def message (t : MessageType) (c : Consensus) (id : Nat) (signer : SecretKey) (payload : Bytes) :
    Message :=
  let msg : Message :=
    { type := t, consensusID := c.consensusID, senderID := id, blockHash := c.blockHash
      payload := payload, signature := [] }
  { msg with signature := env.signMessage signer msg }

/-- The valid PREPARE of validator `id` with key `key` for the current block:
the payload is its signature over the block hash. -/
def prepare (c : Consensus) (id : Nat) (key : SecretKey) : Message :=
  message MessageType.PREPARE c id key (env.SignHash key c.blockHash)

/-- The valid COMMIT of validator `id` with key `key`: the payload is its
signature over the aggregate of the leader's prepare signatures followed by
the prepare bitmap. -/
def commit (c : Consensus) (id : Nat) (key : SecretKey) : Message :=
  message MessageType.COMMIT c id key
    (env.SignHash key
      (env.Serialize (env.AggregateSig c.GetPrepareSigsArray)
        ++ Mask.Bitmap c.PublicKeys.length c.prepareBitmap))

/-- The candidate block of the samples. -/
def candidate : NewBlock where
  hash := List.replicate 32 9
  encoded := some [1, 2, 3]

/-- The sample leader after the valid PREPARE of validator 1. -/
def afterOnePrepare : Consensus :=
  (leader.processPrepareMessage env (prepare leader 1 11)).consensus

/-- The sample leader after the valid PREPAREs of validators 1 and 2. -/
def afterTwoPrepares : Consensus :=
  (afterOnePrepare.processPrepareMessage env (prepare leader 2 12)).consensus

/-- The sample leader after the valid PREPAREs of validators 1, 2 and 3: it is
in PreparedDone and holds its own commit signature, and it was never handed a
block. -/
def afterThreePrepares : Consensus :=
  (afterTwoPrepares.processPrepareMessage env (prepare leader 3 13)).consensus

/-- The sample leader in PreparedDone after the valid COMMIT of validator 1:
one more COMMIT reaches the quorum of 3. -/
def afterOneCommit : Consensus :=
  (afterThreePrepares.processCommitMessage env (commit afterThreePrepares 1 11)).consensus

/-- The sample leader after a round is started for the candidate block. -/
def announced : Consensus :=
  (leader.WaitForNewBlock env candidate).consensus

/-- The announced round after the valid PREPAREs of validators 1 and 2: with
the leader's own signature the quorum of 3 is reached. -/
def quorate : Consensus :=
  ((announced.processPrepareMessage env (prepare announced 1 11)).consensus.processPrepareMessage
    env (prepare announced 2 12)).consensus

/-- The announced round, still in AnnounceDone, after the COMMITs of
validators 1 and 2, signed over the aggregate of the leader's lone prepare
signature and the prepare bitmap. -/
def earlyTwoCommits : Consensus :=
  ((announced.processCommitMessage env (commit announced 1 11)).consensus.processCommitMessage
    env (commit announced 2 12)).consensus

/-- The payloads of `TestProcessMessageLeaderPrepareInvalidSignature`: the
PREPAREs of the three validators, each with an envelope signature made over
other bytes. -/
def badPayloads : List Bytes :=
  [(1, 11), (2, 12), (3, 13)].map (fun v =>
    marshal { prepare leader v.1 v.2 with signature := env.SignHash v.2 [114, 97, 110, 100] })

/-- The block hash of the repository's tests. -/
def testHash : Bytes :=
  List.replicate 32 7

/-- The leader of `TestProcessMessageLeaderCommit`: state PreparedDone, the
block hash and the encoded block set, the callback set, the leader's own
prepare signature recorded, and the aggregate of the prepare signatures set. -/
def preloaded : Consensus :=
  { leader with
    state := State.PreparedDone
    blockHash := testHash
    block := [42]
    prepareSigs := [(0, env.SignHash 10 testHash)]
    aggregatedPrepareSig := some (env.AggregateSig [env.SignHash 10 testHash]) }

/-- The preloaded leader after the valid COMMITs of validators 1 and 2. -/
def afterTwoCommits : Consensus :=
  ((preloaded.processCommitMessage env (commit preloaded 1 11)).consensus.processCommitMessage
    env (commit preloaded 2 12)).consensus

/-- The preloaded leader in the last round of the counter. -/
def lastRound : Consensus :=
  { preloaded with consensusID := 4294967295 }

/-- The leader in the last round of the counter after the valid COMMITs of
validators 1 and 2. -/
def lastRoundTwoCommits : Consensus :=
  ((lastRound.processCommitMessage env (commit lastRound 1 11)).consensus.processCommitMessage
    env (commit lastRound 2 12)).consensus

/-- The shard of the spec's scenario S6: three public keys and `MinPeers = 10`. -/
def understaffed : Consensus :=
  { leader with PublicKeys := [11, 12, 13], MinPeers := 10 }

end Sample

/-! ## Vocabulary of the statements -/

/-- The threshold of lines 159, 182, 229 and 253: `(len(PublicKeys)*2)/3 + 1`. -/
def Consensus.quorum (consensus : Consensus) : Nat :=
  (consensus.PublicKeys.length * 2) / 3 + 1

/-- Whether a send is a broadcast of a message of type `t`. -/
def Effect.isBroadcastOf (t : MessageType) : Effect → Bool
  | .broadcast _ msg => msg.type == t
  | _ => false

/-- Number of broadcasts of type `t` among the sends. -/
def broadcastCount (t : MessageType) (out : List Effect) : Nat :=
  out.countP (Effect.isBroadcastOf t)

/-- The inputs handled within one round: in order, up to the first fault and up
to the input that changes `consensusID`, which ends the round; the sends are
collected. -/
def Consensus.runRound (env : Env) (consensus : Consensus) : List Input → Outcome
  | [] => ⟨consensus, [], false⟩
  | i :: rest =>
    let o := consensus.step env i
    if o.fault then o
    else if o.consensus.consensusID ≠ consensus.consensusID then o
    else
      let o2 := Consensus.runRound env o.consensus rest
      ⟨o2.consensus, o.out ++ o2.out, o2.fault⟩

/-- A PREPARE that `processPrepareMessage` accepts from `peer`: it passes the
envelope check and its payload is a signature that verifies on the block hash
under the peer's key. -/
def Consensus.validPrepare (env : Env) (consensus : Consensus) (message : Message) (peer : Peer)
    (sign : Sign) : Prop :=
  consensus.checkConsensusMessage env message peer.PubKey = true
    ∧ env.Deserialize message.payload = some sign
    ∧ env.VerifyHash sign peer.PubKey consensus.blockHash = true

/-- A COMMIT that `processCommitMessage` accepts from `peer`: it passes the
envelope check and its payload is a signature that verifies on the serialized
aggregate of the collected prepare signatures followed by the prepare bitmap. -/
def Consensus.validCommit (env : Env) (consensus : Consensus) (message : Message) (peer : Peer)
    (sign : Sign) : Prop :=
  consensus.checkConsensusMessage env message peer.PubKey = true
    ∧ env.Deserialize message.payload = some sign
    ∧ env.VerifyHash sign peer.PubKey
        (env.Serialize (env.AggregateSig consensus.GetPrepareSigsArray)
          ++ Mask.Bitmap consensus.PublicKeys.length consensus.prepareBitmap) = true

instance (env : Env) (c : Consensus) (m : Message) (peer : Peer) (sign : Sign) :
    Decidable (c.validPrepare env m peer sign) := by
  unfold Consensus.validPrepare; infer_instance

instance (env : Env) (c : Consensus) (m : Message) (peer : Peer) (sign : Sign) :
    Decidable (c.validCommit env m peer sign) := by
  unfold Consensus.validCommit; infer_instance

/-- A message fails the envelope check: its sender is a validator of the view
and `checkConsensusMessage`, called with that validator's key, returns an
error. -/
def Consensus.failsCheck (env : Env) (consensus : Consensus) (message : Message) : Bool :=
  match consensus.getValidatorPeerByID message.senderID with
  | some peer => !consensus.checkConsensusMessage env message peer.PubKey
  | none => false

/-- An entry of `prepareSigs` is the leader's own signature over the block hash
under the leader's ID, or a signature that verifies on the block hash under the
key of the validator it is filed under. -/
def Consensus.prepareEntryValid (env : Env) (consensus : Consensus) (entry : Nat × Sign) : Bool :=
  (entry.1 == consensus.nodeID
      && entry.2 == env.SignHash consensus.priKey consensus.blockHash)
    || match consensus.getValidatorPeerByID entry.1 with
       | some peer => env.VerifyHash entry.2 peer.PubKey consensus.blockHash
       | none => false

/-! ## The branches of the two handlers, named

The handlers are embedded above as single functions. The definitions below
name their accepting branches; `processPrepareMessage_cases` and
`processCommitMessage_cases` prove that the handlers are made of them. -/

/-- Lines 178-179: the object once the prepare signature of validator
`validatorID`, holder of `key`, is recorded. -/
def Consensus.recordPrepare (consensus : Consensus) (validatorID : Nat) (sign : Sign)
    (key : PublicKey) : Consensus :=
  { consensus with
    prepareSigs := consensus.prepareSigs.set validatorID sign
    prepareBitmap := Mask.SetKey consensus.PublicKeys consensus.prepareBitmap key }

/-- Lines 183-200: the PREPARED branch, taken on the object that already
holds the new prepare signature. -/
def Consensus.announcePrepared (env : Env) (consensus : Consensus) : Outcome :=
  let aggSig := env.AggregateSig consensus.GetPrepareSigsArray
  ⟨{ consensus with
      aggregatedPrepareSig := some aggSig
      state := State.PreparedDone
      commitSigs := consensus.commitSigs.set consensus.nodeID
        (env.SignHash consensus.priKey
          (env.Serialize aggSig
            ++ Mask.Bitmap consensus.PublicKeys.length consensus.prepareBitmap)) },
    [Effect.broadcast env.UseLibP2P (consensus.constructPreparedMessage env).1], false⟩

/-- Lines 248-250: the object once the commit signature of validator
`validatorID`, holder of `key`, is recorded. -/
def Consensus.recordCommit (consensus : Consensus) (validatorID : Nat) (sign : Sign)
    (key : PublicKey) : Consensus :=
  { consensus with
    commitSigs := consensus.commitSigs.set validatorID sign
    commitBitmap := Mask.SetKey consensus.PublicKeys consensus.commitBitmap key }

/-- The object a finalization leaves: reset, with the round counter
incremented as a `uint32`. -/
def Consensus.nextRound (env : Env) (consensus : Consensus) : Consensus :=
  { consensus.ResetState env with consensusID := (consensus.consensusID + 1) % 4294967296 }

/-- Lines 254-301: the COMMITTED branch, taken on the object that already
holds the new commit signature. -/
def Consensus.finalize (env : Env) (consensus : Consensus) : Outcome :=
  let sent := [Effect.broadcast env.UseLibP2P (consensus.constructCommittedMessage env).1]
  let c2 := { consensus with
    aggregatedCommitSig := some (env.AggregateSig consensus.GetCommitSigsArray) }
  match env.DecodeBytes consensus.block with
  | none => ⟨c2, sent ++ [Effect.log decodeFailureText], true⟩
  | some decoded =>
    match consensus.aggregatedPrepareSig with
    | none => ⟨c2, sent, true⟩
    | some _ =>
      let published := [Effect.verifiedNewBlock decoded,
                        Effect.dump decoded consensus.consensusID]
      if !consensus.OnConsensusDone then ⟨consensus.nextRound env, sent ++ published, true⟩
      else
        ⟨consensus.nextRound env,
          sent ++ published ++ [Effect.onConsensusDone decoded, Effect.readySignal], false⟩

/-- Every entry of `prepareSigs` is valid in the sense of
`prepareEntryValid`. -/
def Consensus.prepareSigsValid (env : Env) (consensus : Consensus) : Prop :=
  ∀ entry ∈ consensus.prepareSigs, consensus.prepareEntryValid env entry = true

/-- The validators' entries of a signature map are tracked by its bitmap:
every entry filed under an ID other than the leader's belongs to a validator
of the view, and the bit of that validator's key, if the key has a canonical
index, is set. -/
def entriesTracked (validators : List (Nat × Peer)) (publics : List PublicKey) (nodeID : Nat)
    (sigs : SigMap) (bitmap : Mask) : Prop :=
  ∀ id, sigs.contains id = true → id ≠ nodeID →
    ∃ peer, validators.lookup id = some peer
      ∧ ∀ i, keyIndex publics peer.PubKey = some i → bitmap.testBit i = true

/-- Both bitmaps of the leader track the validators' entries of their
signature maps. -/
def Consensus.bitmapsTrack (consensus : Consensus) : Prop :=
  entriesTracked consensus.validators consensus.PublicKeys consensus.nodeID
      consensus.prepareSigs consensus.prepareBitmap
    ∧ entriesTracked consensus.validators consensus.PublicKeys consensus.nodeID
      consensus.commitSigs consensus.commitBitmap

/-- The threshold of the leader as a function of the number of public keys:
the expression of lines 159, 182, 229 and 253. -/
def quorumOf (n : Nat) : Nat :=
  (n * 2) / 3 + 1

/-- The tallies stay within the quorum: no reachable object is in
CommittedDone, neither map holds more entries than the quorum, and before
PreparedDone, where the leader's own commit signature is still to come,
`commitSigs` holds fewer. -/
def Consensus.talliesBounded (consensus : Consensus) : Prop :=
  consensus.state ≠ State.CommittedDone
    ∧ consensus.prepareSigs.length ≤ consensus.quorum
    ∧ consensus.commitSigs.length ≤ consensus.quorum
    ∧ (consensus.state.toNat < State.PreparedDone.toNat →
        consensus.commitSigs.length < consensus.quorum)

/-- The leader's own entries are where the code puts them: in AnnounceDone
`prepareSigs` holds the leader's ID, and once the prepare aggregate is set
`commitSigs` holds the leader's ID. -/
def Consensus.ownEntries (consensus : Consensus) : Prop :=
  (consensus.state = State.AnnounceDone →
      consensus.prepareSigs.contains consensus.nodeID = true)
    ∧ (consensus.aggregatedPrepareSig ≠ none →
      consensus.commitSigs.contains consensus.nodeID = true)

/-- The block a send offers on `VerifiedNewBlock`, if the send is one. -/
def Effect.publishedBlock : Effect → Option Block
  | .verifiedNewBlock b => some b
  | _ => none

/-! ## Signature maps: basic facts -/

theorem SigMap.set_of_not_contains (m : SigMap) (k : Nat) (v : Sign)
    (h : m.contains k = false) : m.set k v = m ++ [(k, v)] := by
  simp [SigMap.set, h]

theorem SigMap.contains_set_self (m : SigMap) (k : Nat) (v : Sign) :
    (m.set k v).contains k = true := by
  unfold SigMap.set
  split
  · rename_i h
    simp only [SigMap.contains, List.any_eq_true, List.mem_map] at h ⊢
    obtain ⟨e, he, hk⟩ := h
    exact ⟨_, ⟨e, he, rfl⟩, by simp [hk]⟩
  · simp [SigMap.contains]

theorem SigMap.length_set_of_not_contains (m : SigMap) (k : Nat) (v : Sign)
    (h : m.contains k = false) : (m.set k v).length = m.length + 1 := by
  simp [SigMap.set_of_not_contains m k v h]

theorem SigMap.length_set_le (m : SigMap) (k : Nat) (v : Sign) :
    (m.set k v).length ≤ m.length + 1 := by
  unfold SigMap.set
  split <;> simp

/-! ## Runs stay among the reachable objects -/

theorem Reachable.of_run (env : Env) (inputs : List Input) :
    ∀ c, Reachable env c → (c.run env inputs).fault = false →
      Reachable env (c.run env inputs).consensus := by
  induction inputs with
  | nil => intro c h _; exact h
  | cons i rest ih =>
    intro c h hf
    simp only [Consensus.run] at hf ⊢
    by_cases hfi : (c.step env i).fault = true
    · simp [hfi] at hf
    · have hfi2 : (c.step env i).fault = false := by simpa using hfi
      simp only [hfi2, Bool.false_eq_true, if_false] at hf ⊢
      exact ih _ (Reachable.step c i h hfi2) hf

/-! ## The handlers are made of their branches -/

theorem processPrepareMessage_cases (env : Env) (c : Consensus) (m : Message) :
    (c.getValidatorPeerByID m.senderID = none ∧ c.processPrepareMessage env m = ⟨c, [], true⟩)
    ∨ (c.getValidatorPeerByID m.senderID ≠ none ∧ c.processPrepareMessage env m = ⟨c, [], false⟩)
    ∨ ∃ peer sign, c.getValidatorPeerByID m.senderID = some peer
        ∧ c.validPrepare env m peer sign
        ∧ c.prepareSigs.contains m.senderID = false
        ∧ c.prepareSigs.length < c.quorum
        ∧ ((c.quorum ≤ (c.recordPrepare m.senderID sign peer.PubKey).prepareSigs.length
              ∧ c.state.toNat < State.PreparedDone.toNat
              ∧ c.processPrepareMessage env m
                  = (c.recordPrepare m.senderID sign peer.PubKey).announcePrepared env)
          ∨ (¬ (c.quorum ≤ (c.recordPrepare m.senderID sign peer.PubKey).prepareSigs.length
                ∧ c.state.toNat < State.PreparedDone.toNat)
              ∧ c.processPrepareMessage env m
                  = ⟨c.recordPrepare m.senderID sign peer.PubKey, [], false⟩)) := by
  cases hp : c.getValidatorPeerByID m.senderID with
  | none => left; simp [Consensus.processPrepareMessage, hp]
  | some peer =>
    right
    by_cases h1 : c.checkConsensusMessage env m peer.PubKey = true
    swap
    · left; simp [Consensus.processPrepareMessage, hp, h1]
    by_cases h2 : c.prepareSigs.contains m.senderID = true
    · left; simp [Consensus.processPrepareMessage, hp, h1, h2]
    by_cases h3 : c.prepareSigs.length ≥ c.PublicKeys.length * 2 / 3 + 1
    · left; simp [Consensus.processPrepareMessage, hp, h1, h2, h3]
    cases h4 : env.Deserialize m.payload with
    | none => left; simp [Consensus.processPrepareMessage, hp, h1, h2, h3, h4]
    | some sign =>
      by_cases h5 : env.VerifyHash sign peer.PubKey c.blockHash = true
      swap
      · left; simp [Consensus.processPrepareMessage, hp, h1, h2, h3, h4, h5]
      right
      refine ⟨peer, sign, rfl, ⟨h1, h4, h5⟩, by simpa using h2,
        by unfold Consensus.quorum; omega, ?_⟩
      by_cases h6 : c.quorum ≤ (c.recordPrepare m.senderID sign peer.PubKey).prepareSigs.length
              ∧ c.state.toNat < State.PreparedDone.toNat
      · left
        refine ⟨h6.1, h6.2, ?_⟩
        have h6c := h6
        simp only [Consensus.quorum, Consensus.recordPrepare] at h6c
        simp [Consensus.processPrepareMessage, hp, h1, h2, h3, h4, h5, h6c,
          Consensus.announcePrepared, Consensus.recordPrepare,
          Consensus.constructPreparedMessage]
      · right
        refine ⟨h6, ?_⟩
        have h6c := h6
        simp only [Consensus.quorum, Consensus.recordPrepare] at h6c
        simp [Consensus.processPrepareMessage, hp, h1, h2, h3, h4, h5, h6c,
          Consensus.recordPrepare]

theorem processCommitMessage_cases (env : Env) (c : Consensus) (m : Message) :
    (c.getValidatorPeerByID m.senderID = none ∧ c.processCommitMessage env m = ⟨c, [], true⟩)
    ∨ (c.getValidatorPeerByID m.senderID ≠ none ∧ c.processCommitMessage env m = ⟨c, [], false⟩)
    ∨ ∃ peer sign, c.getValidatorPeerByID m.senderID = some peer
        ∧ c.validCommit env m peer sign
        ∧ c.commitSigs.contains m.senderID = false
        ∧ c.commitSigs.length < c.quorum
        ∧ ((c.quorum ≤ (c.recordCommit m.senderID sign peer.PubKey).commitSigs.length
              ∧ c.state ≠ State.CommittedDone
              ∧ c.processCommitMessage env m
                  = (c.recordCommit m.senderID sign peer.PubKey).finalize env)
          ∨ (¬ (c.quorum ≤ (c.recordCommit m.senderID sign peer.PubKey).commitSigs.length
                ∧ c.state ≠ State.CommittedDone)
              ∧ c.processCommitMessage env m
                  = ⟨c.recordCommit m.senderID sign peer.PubKey, [], false⟩)) := by
  cases hp : c.getValidatorPeerByID m.senderID with
  | none => left; simp [Consensus.processCommitMessage, hp]
  | some peer =>
    right
    by_cases h1 : c.checkConsensusMessage env m peer.PubKey = true
    swap
    · left; simp [Consensus.processCommitMessage, hp, h1]
    by_cases h2 : c.commitSigs.contains m.senderID = true
    · left; simp [Consensus.processCommitMessage, hp, h1, h2]
    by_cases h3 : c.commitSigs.length ≥ c.PublicKeys.length * 2 / 3 + 1
    · left; simp [Consensus.processCommitMessage, hp, h1, h2, h3]
    cases h4 : env.Deserialize m.payload with
    | none => left; simp [Consensus.processCommitMessage, hp, h1, h2, h3, h4]
    | some sign =>
      by_cases h5 : env.VerifyHash sign peer.PubKey
          (env.Serialize (env.AggregateSig c.GetPrepareSigsArray)
            ++ Mask.Bitmap c.PublicKeys.length c.prepareBitmap) = true
      swap
      · left; simp [Consensus.processCommitMessage, hp, h1, h2, h3, h4, h5]
      right
      refine ⟨peer, sign, rfl, ⟨h1, h4, h5⟩, by simpa using h2,
        by unfold Consensus.quorum; omega, ?_⟩
      by_cases h6 : c.quorum ≤ (c.recordCommit m.senderID sign peer.PubKey).commitSigs.length
              ∧ c.state ≠ State.CommittedDone
      · left
        refine ⟨h6.1, h6.2, ?_⟩
        have h6c := h6
        simp only [Consensus.quorum, Consensus.recordCommit] at h6c
        cases h8 : env.DecodeBytes c.block <;> cases h7 : c.aggregatedPrepareSig <;>
          cases h9 : c.OnConsensusDone <;>
          simp [Consensus.processCommitMessage, hp, h1, h2, h3, h4, h5, h6c, h7, h8, h9,
            Consensus.finalize, Consensus.recordCommit,
            Consensus.constructCommittedMessage, Consensus.ResetState, Consensus.nextRound,
            Consensus.GetCommitSigsArray]
      · right
        refine ⟨h6, ?_⟩
        have h6c := h6
        simp only [Consensus.quorum, Consensus.recordCommit] at h6c
        simp [Consensus.processCommitMessage, hp, h1, h2, h3, h4, h5, h6c,
          Consensus.recordCommit]

/-! ## Dropped and accepted messages -/

theorem processPrepareMessage_of_contains (env : Env) (c : Consensus) (m : Message) (peer : Peer)
    (hpeer : c.getValidatorPeerByID m.senderID = some peer)
    (hdup : c.prepareSigs.contains m.senderID = true) :
    c.processPrepareMessage env m = ⟨c, [], false⟩ := by
  by_cases h1 : c.checkConsensusMessage env m peer.PubKey = true <;>
    simp [Consensus.processPrepareMessage, hpeer, hdup, h1]

theorem processCommitMessage_of_contains (env : Env) (c : Consensus) (m : Message) (peer : Peer)
    (hpeer : c.getValidatorPeerByID m.senderID = some peer)
    (hdup : c.commitSigs.contains m.senderID = true) :
    c.processCommitMessage env m = ⟨c, [], false⟩ := by
  by_cases h1 : c.checkConsensusMessage env m peer.PubKey = true <;>
    simp [Consensus.processCommitMessage, hpeer, hdup, h1]

theorem processPrepareMessage_of_quorum (env : Env) (c : Consensus) (m : Message) (peer : Peer)
    (hpeer : c.getValidatorPeerByID m.senderID = some peer)
    (hq : c.quorum ≤ c.prepareSigs.length) :
    c.processPrepareMessage env m = ⟨c, [], false⟩ := by
  unfold Consensus.quorum at hq
  by_cases h1 : c.checkConsensusMessage env m peer.PubKey = true <;>
    by_cases h2 : c.prepareSigs.contains m.senderID = true <;>
    simp [Consensus.processPrepareMessage, hpeer, h1, h2, hq]

theorem processCommitMessage_of_quorum (env : Env) (c : Consensus) (m : Message) (peer : Peer)
    (hpeer : c.getValidatorPeerByID m.senderID = some peer)
    (hq : c.quorum ≤ c.commitSigs.length) :
    c.processCommitMessage env m = ⟨c, [], false⟩ := by
  unfold Consensus.quorum at hq
  by_cases h1 : c.checkConsensusMessage env m peer.PubKey = true <;>
    by_cases h2 : c.commitSigs.contains m.senderID = true <;>
    simp [Consensus.processCommitMessage, hpeer, h1, h2, hq]

theorem processPrepareMessage_of_valid (env : Env) (c : Consensus) (m : Message) (peer : Peer)
    (sign : Sign) (hpeer : c.getValidatorPeerByID m.senderID = some peer)
    (hvalid : c.validPrepare env m peer sign)
    (hnew : c.prepareSigs.contains m.senderID = false)
    (hlt : c.prepareSigs.length < c.quorum) :
    c.processPrepareMessage env m =
      if c.quorum ≤ c.prepareSigs.length + 1 ∧ c.state.toNat < State.PreparedDone.toNat then
        (c.recordPrepare m.senderID sign peer.PubKey).announcePrepared env
      else ⟨c.recordPrepare m.senderID sign peer.PubKey, [], false⟩ := by
  obtain ⟨h1, h4, h5⟩ := hvalid
  have hq : ¬ (c.PublicKeys.length * 2 / 3 + 1 ≤ c.prepareSigs.length) := by
    unfold Consensus.quorum at hlt; omega
  by_cases h6 : c.quorum ≤ c.prepareSigs.length + 1 ∧ c.state.toNat < State.PreparedDone.toNat
  · rw [if_pos h6]
    simp only [Consensus.quorum] at h6
    simp [Consensus.processPrepareMessage, hpeer, h1, hnew, hq, h4, h5, h6,
      SigMap.set_of_not_contains _ _ _ hnew, Consensus.announcePrepared,
      Consensus.recordPrepare, Consensus.constructPreparedMessage]
  · rw [if_neg h6]
    simp only [Consensus.quorum] at h6
    simp only [Consensus.processPrepareMessage, hpeer, h1, hnew, h4, h5,
      SigMap.set_of_not_contains _ _ _ hnew, Consensus.recordPrepare, List.length_append,
      List.length_singleton, ge_iff_le, if_neg hq, if_neg h6, Bool.not_true, Bool.false_eq_true,
      if_false]

theorem processCommitMessage_of_valid (env : Env) (c : Consensus) (m : Message) (peer : Peer)
    (sign : Sign) (hpeer : c.getValidatorPeerByID m.senderID = some peer)
    (hvalid : c.validCommit env m peer sign)
    (hnew : c.commitSigs.contains m.senderID = false)
    (hlt : c.commitSigs.length < c.quorum) :
    c.processCommitMessage env m =
      if c.quorum ≤ c.commitSigs.length + 1 ∧ c.state ≠ State.CommittedDone then
        (c.recordCommit m.senderID sign peer.PubKey).finalize env
      else ⟨c.recordCommit m.senderID sign peer.PubKey, [], false⟩ := by
  obtain ⟨h1, h4, h5⟩ := hvalid
  have hq : ¬ (c.PublicKeys.length * 2 / 3 + 1 ≤ c.commitSigs.length) := by
    unfold Consensus.quorum at hlt; omega
  by_cases h6 : c.quorum ≤ c.commitSigs.length + 1 ∧ c.state ≠ State.CommittedDone
  · rw [if_pos h6]
    simp only [Consensus.quorum] at h6
    cases h8 : env.DecodeBytes c.block <;> cases h7 : c.aggregatedPrepareSig <;>
      cases h9 : c.OnConsensusDone <;>
      simp [Consensus.processCommitMessage, hpeer, h1, hnew, hq, h4, h5, h6, h7, h8, h9,
        SigMap.set_of_not_contains _ _ _ hnew, Consensus.finalize,
        Consensus.recordCommit, Consensus.constructCommittedMessage,
        Consensus.ResetState, Consensus.nextRound, Consensus.GetCommitSigsArray]
  · rw [if_neg h6]
    simp only [Consensus.quorum] at h6
    simp only [Consensus.processCommitMessage, hpeer, h1, hnew, h4, h5,
      SigMap.set_of_not_contains _ _ _ hnew, Consensus.recordCommit, List.length_append,
      List.length_singleton, ge_iff_le, if_neg hq, if_neg h6, Bool.not_true, Bool.false_eq_true,
      if_false]

/-! ## Late messages -/

/-- C4 (late messages are dropped). Once `prepareSigs` holds at least
`(2*|PublicKeys|)/3 + 1` entries, a PREPARE from a validator of the view that
is not yet in `prepareSigs`, valid or not, leaves the whole consensus object
unchanged and sends nothing; the same holds for a COMMIT and `commitSigs`. -/
theorem late_message_is_dropped (env : Env) (c : Consensus) (m : Message) (peer : Peer)
    (hpeer : c.getValidatorPeerByID m.senderID = some peer) :
    (c.prepareSigs.contains m.senderID = false →
      (c.PublicKeys.length * 2) / 3 + 1 ≤ c.prepareSigs.length →
      c.processPrepareMessage env m = ⟨c, [], false⟩)
    ∧ (c.commitSigs.contains m.senderID = false →
      (c.PublicKeys.length * 2) / 3 + 1 ≤ c.commitSigs.length →
      c.processCommitMessage env m = ⟨c, [], false⟩) :=
  ⟨fun _ hq => processPrepareMessage_of_quorum env c m peer hpeer hq,
   fun _ hq => processCommitMessage_of_quorum env c m peer hpeer hq⟩

/-- C4 on the sample round: with the quorum of 3 reached, the valid PREPARE of
validator 3 is dropped. -/
theorem late_message_is_dropped_witness :
    Sample.quorate.getValidatorPeerByID (Sample.prepare Sample.announced 3 13).senderID
        = some ⟨13⟩
      ∧ Sample.quorate.validPrepare Sample.env (Sample.prepare Sample.announced 3 13) ⟨13⟩
          [13, 32, 288]
      ∧ Sample.quorate.prepareSigs.contains 3 = false
      ∧ Sample.quorate.prepareSigs.length = 3
      ∧ Sample.quorate.processPrepareMessage Sample.env (Sample.prepare Sample.announced 3 13)
          = ⟨Sample.quorate, [], false⟩ :=
  ⟨by decide, by decide, by decide, by decide,
    (late_message_is_dropped Sample.env Sample.quorate (Sample.prepare Sample.announced 3 13)
      ⟨13⟩ (by decide)).1 (by decide) (by decide)⟩

/-! ## The envelope check -/

/-- C5 (a failed envelope check drops the message). Payloads whose decoded
message comes from a validator of the view and fails `checkConsensusMessage`
leave the whole consensus object unchanged and send nothing when handled by
`ProcessMessageLeader`, one by one and in any number; a leader that was in
Finished is still in Finished. -/
theorem failed_check_is_dropped (env : Env) (c : Consensus) (payloads : List Bytes)
    (hbad : ∀ p ∈ payloads, c.failsCheck env (env.Unmarshal p) = true) :
    (∀ p ∈ payloads, c.ProcessMessageLeader env p = ⟨c, [], false⟩)
    ∧ c.run env (payloads.map Input.payload) = ⟨c, [], false⟩
    ∧ (c.state = State.Finished →
        (c.run env (payloads.map Input.payload)).consensus.state = State.Finished) := by
  have hone : ∀ p, c.failsCheck env (env.Unmarshal p) = true →
      c.ProcessMessageLeader env p = ⟨c, [], false⟩ := by
    intro p hp
    unfold Consensus.failsCheck at hp
    cases hpeer : c.getValidatorPeerByID (env.Unmarshal p).senderID with
    | none => simp [hpeer] at hp
    | some peer =>
      simp only [hpeer] at hp
      have hck : c.checkConsensusMessage env (env.Unmarshal p) peer.PubKey = false := by
        simpa using hp
      cases ht : (env.Unmarshal p).type <;>
        simp [Consensus.ProcessMessageLeader, ht, Consensus.processPrepareMessage,
          Consensus.processCommitMessage, hpeer, hck]
  have hrun : c.run env (payloads.map Input.payload) = ⟨c, [], false⟩ := by
    induction payloads with
    | nil => rfl
    | cons p rest ih =>
      have h1 := hone p (hbad p (List.mem_cons_self _ _))
      have h2 := ih (fun q hq => hbad q (List.mem_cons_of_mem _ hq))
      simp [Consensus.run, Consensus.step, h1, h2]
  refine ⟨fun p hp => hone p (hbad p hp), hrun, fun hfin => ?_⟩
  rw [hrun]; exact hfin

/-- C5 on the payloads of `TestProcessMessageLeaderPrepareInvalidSignature`:
the leader stays in Finished. -/
theorem failed_check_is_dropped_witness :
    (∀ p ∈ Sample.badPayloads,
        Sample.leader.failsCheck Sample.env (Sample.env.Unmarshal p) = true)
      ∧ (Sample.leader.run Sample.env (Sample.badPayloads.map Input.payload)).consensus.state
          = State.Finished :=
  ⟨by decide,
    (failed_check_is_dropped Sample.env Sample.leader Sample.badPayloads (by decide)).2.2
      (by decide)⟩

/-! ## The unknown sender -/

/-- C9 (unknown sender), evaluated on the code: a PREPARE and a COMMIT from
sender 9, which the sample leader's validator view does not hold, end in a
fault at the dereference of the missing peer (lines 147 and 214) instead of
returning; the object is unchanged and nothing is sent. -/
theorem unknown_sender_faults :
    Sample.leader.getValidatorPeerByID 9 = none
      ∧ Sample.leader.processPrepareMessage Sample.env (Sample.prepare Sample.leader 9 19)
          = ⟨Sample.leader, [], true⟩
      ∧ Sample.leader.processCommitMessage Sample.env (Sample.commit Sample.leader 9 19)
          = ⟨Sample.leader, [], true⟩ := by decide

/-- Every message whose sender the view does not hold ends the handler in the
fault of the nil dereference. -/
theorem missing_peer_is_dereferenced (env : Env) (c : Consensus) (m : Message)
    (hpeer : c.getValidatorPeerByID m.senderID = none) :
    c.processPrepareMessage env m = ⟨c, [], true⟩
      ∧ c.processCommitMessage env m = ⟨c, [], true⟩ := by
  simp [Consensus.processPrepareMessage, Consensus.processCommitMessage, hpeer]

/-! ## Reaching the quorum -/

theorem Mask.testBit_SetKey_self (publics : List PublicKey) (m : Mask) (key : PublicKey) (i : Nat)
    (hi : keyIndex publics key = some i) : (Mask.SetKey publics m key).testBit i = true := by
  simp [Mask.SetKey, hi, Nat.testBit_or, Nat.testBit_two_pow_self]

/-- C6 (prepare-quorum transition). In a state below PreparedDone whose
`prepareSigs` holds `q - 1` entries, `q = (2*|PublicKeys|)/3 + 1`, a PREPARE
from a validator of the view that passes the envelope check, is not yet in
`prepareSigs` and carries a signature valid for the block hash under the
validator's key makes the handler return with state PreparedDone, the sender
recorded in `prepareSigs`, the bit of its canonical index set in
`prepareBitmap`, `aggregatedPrepareSig` set to the aggregate of the recorded
signatures, `commitSigs[nodeID]` assigned the leader's signature over
`aggregatedPrepareSig ‖ prepareBitmap`, and exactly one send, the PREPARED
broadcast. A valid PREPARE that leaves the tally below `q` is recorded the
same way, without a send and without a change of state. -/
theorem prepare_quorum_transition (env : Env) (c : Consensus) (m : Message) (peer : Peer)
    (sign : Sign) (hpeer : c.getValidatorPeerByID m.senderID = some peer)
    (hvalid : c.validPrepare env m peer sign)
    (hnew : c.prepareSigs.contains m.senderID = false) :
    (c.state.toNat < State.PreparedDone.toNat →
      c.prepareSigs.length = ((c.PublicKeys.length * 2) / 3 + 1) - 1 →
      (c.processPrepareMessage env m).fault = false
      ∧ (c.processPrepareMessage env m).consensus.state = State.PreparedDone
      ∧ (c.processPrepareMessage env m).consensus.prepareSigs
          = c.prepareSigs ++ [(m.senderID, sign)]
      ∧ (∀ i, keyIndex c.PublicKeys peer.PubKey = some i →
          (c.processPrepareMessage env m).consensus.prepareBitmap.testBit i = true)
      ∧ (c.processPrepareMessage env m).consensus.aggregatedPrepareSig
          = some (env.AggregateSig (c.prepareSigs ++ [(m.senderID, sign)]).sigs)
      ∧ (c.processPrepareMessage env m).consensus.commitSigs
          = c.commitSigs.set c.nodeID
              (env.SignHash c.priKey
                (env.Serialize (env.AggregateSig (c.prepareSigs ++ [(m.senderID, sign)]).sigs)
                  ++ Mask.Bitmap c.PublicKeys.length
                      (c.processPrepareMessage env m).consensus.prepareBitmap))
      ∧ ∃ msg, (c.processPrepareMessage env m).out = [Effect.broadcast env.UseLibP2P msg]
          ∧ msg.type = MessageType.PREPARED
          ∧ msg.payload
              = env.Serialize (env.AggregateSig (c.prepareSigs ++ [(m.senderID, sign)]).sigs)
                ++ Mask.Bitmap c.PublicKeys.length
                    (c.processPrepareMessage env m).consensus.prepareBitmap)
    ∧ (c.prepareSigs.length + 1 < (c.PublicKeys.length * 2) / 3 + 1 →
      (c.processPrepareMessage env m).fault = false
      ∧ (c.processPrepareMessage env m).consensus.state = c.state
      ∧ (c.processPrepareMessage env m).consensus.prepareSigs
          = c.prepareSigs ++ [(m.senderID, sign)]
      ∧ (c.processPrepareMessage env m).out = []) := by
  have hset := SigMap.set_of_not_contains c.prepareSigs m.senderID sign hnew
  constructor
  · intro hstate hlen
    have hlt : c.prepareSigs.length < c.quorum := by unfold Consensus.quorum; omega
    have hq : c.quorum ≤ c.prepareSigs.length + 1 := by unfold Consensus.quorum; omega
    rw [processPrepareMessage_of_valid env c m peer sign hpeer hvalid hnew hlt,
      if_pos ⟨hq, hstate⟩]
    refine ⟨rfl, rfl, hset, ?_, ?_, ?_, ?_⟩
    · intro i hi
      exact Mask.testBit_SetKey_self _ _ _ _ hi
    · simp [Consensus.announcePrepared, Consensus.recordPrepare, Consensus.GetPrepareSigsArray,
        hset]
    · simp [Consensus.announcePrepared, Consensus.recordPrepare, Consensus.GetPrepareSigsArray,
        hset]
    · refine ⟨_, rfl, ?_, ?_⟩
      · simp [Consensus.constructPreparedMessage, Consensus.signed]
      · simp [Consensus.announcePrepared, Consensus.recordPrepare,
          Consensus.GetPrepareSigsArray, Consensus.constructPreparedMessage, Consensus.signed,
          hset]
  · intro hlen
    have hlt : c.prepareSigs.length < c.quorum := by unfold Consensus.quorum; omega
    have hq : ¬ (c.quorum ≤ c.prepareSigs.length + 1 ∧ c.state.toNat < State.PreparedDone.toNat) := by
      unfold Consensus.quorum; omega
    rw [processPrepareMessage_of_valid env c m peer sign hpeer hvalid hnew hlt, if_neg hq]
    exact ⟨rfl, rfl, hset, rfl⟩

/-- C6 on the messages of `TestProcessMessageLeaderPrepare`: N = 4, a fresh
leader, three validators each sending one valid PREPARE; the third one moves
the leader to PreparedDone. -/
theorem prepare_quorum_transition_witness :
    (Sample.leader.run Sample.env
        [Input.payload (Sample.marshal (Sample.prepare Sample.leader 1 11)),
         Input.payload (Sample.marshal (Sample.prepare Sample.leader 2 12)),
         Input.payload (Sample.marshal (Sample.prepare Sample.leader 3 13))]).consensus
        = Sample.afterThreePrepares
      ∧ Sample.afterTwoPrepares.state = State.Finished
      ∧ Sample.afterTwoPrepares.validPrepare Sample.env (Sample.prepare Sample.leader 3 13)
          ⟨13⟩ [13, 32, 0]
      ∧ Sample.afterThreePrepares.state = State.PreparedDone :=
  ⟨by decide, by decide, by decide,
    ((prepare_quorum_transition Sample.env Sample.afterTwoPrepares
      (Sample.prepare Sample.leader 3 13) ⟨13⟩ [13, 32, 0] (by decide) (by decide) (by decide)).1
      (by decide) (by decide)).2.1⟩

theorem Consensus.finalize_of_return (env : Env) (c : Consensus) (decoded : Block) (agg : Sign)
    (hdec : env.DecodeBytes c.block = some decoded)
    (hagg : c.aggregatedPrepareSig = some agg) (hcall : c.OnConsensusDone = true) :
    c.finalize env =
      ⟨c.nextRound env,
        [Effect.broadcast env.UseLibP2P (c.constructCommittedMessage env).1,
          Effect.verifiedNewBlock decoded, Effect.dump decoded c.consensusID,
          Effect.onConsensusDone decoded, Effect.readySignal], false⟩ := by
  simp [Consensus.finalize, hdec, hagg, hcall]

theorem Consensus.finalize_of_no_block (env : Env) (c : Consensus)
    (hdec : env.DecodeBytes c.block = none) :
    c.finalize env =
      ⟨{ c with aggregatedCommitSig := some (env.AggregateSig c.GetCommitSigsArray) },
        [Effect.broadcast env.UseLibP2P (c.constructCommittedMessage env).1,
          Effect.log decodeFailureText], true⟩ := by
  simp [Consensus.finalize, hdec]

/-- A finalization that returns decoded the block, found the prepare aggregate
and the callback set, and left the object of the next round. -/
theorem Consensus.finalize_returns (env : Env) (c : Consensus)
    (h : (c.finalize env).fault = false) :
    ∃ decoded agg, env.DecodeBytes c.block = some decoded
      ∧ c.aggregatedPrepareSig = some agg
      ∧ c.OnConsensusDone = true
      ∧ c.finalize env =
          ⟨c.nextRound env,
            [Effect.broadcast env.UseLibP2P (c.constructCommittedMessage env).1,
              Effect.verifiedNewBlock decoded, Effect.dump decoded c.consensusID,
              Effect.onConsensusDone decoded, Effect.readySignal],
            false⟩ := by
  cases hdec : env.DecodeBytes c.block with
  | none => simp [Consensus.finalize, hdec] at h
  | some decoded =>
    cases hagg : c.aggregatedPrepareSig with
    | none => simp [Consensus.finalize, hdec, hagg] at h
    | some agg =>
      cases hcall : c.OnConsensusDone with
      | false => simp [Consensus.finalize, hdec, hagg, hcall] at h
      | true => exact ⟨decoded, agg, rfl, rfl, rfl, Consensus.finalize_of_return env c decoded agg hdec hagg hcall⟩

/-- C7, as stated, fails on the code, in two ways. First, the announced sample
round, still in AnnounceDone and with no prepare aggregate set, holds the
COMMITs of validators 1 and 2 (`q - 1 = 2` entries), a state the leader
reaches by handling the candidate block and these two messages; the valid
COMMIT of validator 3 reaches the quorum, COMMITTED is broadcast, the block
decodes, and the handler faults at line 273 on the nil `aggregatedPrepareSig`:
the state is not Finished, `consensusID` is not incremented, `commitSigs` is
not cleared, no block is offered and no ready signal is sent. Second, in the
last round of the `uint32` counter, `consensusID = 4294967295`, the preloaded
leader of the repository's test finalizes on the third valid COMMIT and the
new `consensusID` is 0, not the old one plus 1. -/
theorem finalization_faults_without_prepare_aggregate :
    (Reachable Sample.env Sample.earlyTwoCommits
      ∧ Sample.earlyTwoCommits.state ≠ State.CommittedDone
      ∧ Sample.earlyTwoCommits.commitSigs.length
          = ((Sample.earlyTwoCommits.PublicKeys.length * 2) / 3 + 1) - 1
      ∧ Sample.earlyTwoCommits.getValidatorPeerByID 3 = some ⟨13⟩
      ∧ Sample.earlyTwoCommits.validCommit Sample.env (Sample.commit Sample.announced 3 13) ⟨13⟩
          [13, 3, 331]
      ∧ Sample.earlyTwoCommits.commitSigs.contains 3 = false
      ∧ Sample.env.DecodeBytes Sample.earlyTwoCommits.block ≠ none
      ∧ (Sample.earlyTwoCommits.processCommitMessage Sample.env
          (Sample.commit Sample.announced 3 13)).fault = true
      ∧ (Sample.earlyTwoCommits.processCommitMessage Sample.env
          (Sample.commit Sample.announced 3 13)).consensus.state = State.AnnounceDone
      ∧ (Sample.earlyTwoCommits.processCommitMessage Sample.env
          (Sample.commit Sample.announced 3 13)).consensus.consensusID
          = Sample.earlyTwoCommits.consensusID
      ∧ (Sample.earlyTwoCommits.processCommitMessage Sample.env
          (Sample.commit Sample.announced 3 13)).consensus.commitSigs.length = 3
      ∧ (Sample.earlyTwoCommits.processCommitMessage Sample.env
          (Sample.commit Sample.announced 3 13)).out.filterMap Effect.publishedBlock = []
      ∧ Effect.readySignal ∉ (Sample.earlyTwoCommits.processCommitMessage Sample.env
          (Sample.commit Sample.announced 3 13)).out)
    ∧ (Sample.lastRoundTwoCommits.state ≠ State.CommittedDone
      ∧ Sample.lastRoundTwoCommits.commitSigs.length
          = ((Sample.lastRoundTwoCommits.PublicKeys.length * 2) / 3 + 1) - 1
      ∧ Sample.lastRoundTwoCommits.getValidatorPeerByID 3 = some ⟨13⟩
      ∧ Sample.lastRoundTwoCommits.validCommit Sample.env (Sample.commit Sample.lastRound 3 13)
          ⟨13⟩ [13, 3, 267]
      ∧ Sample.lastRoundTwoCommits.commitSigs.contains 3 = false
      ∧ Sample.lastRoundTwoCommits.consensusID = 4294967295
      ∧ (Sample.lastRoundTwoCommits.processCommitMessage Sample.env
          (Sample.commit Sample.lastRound 3 13)).fault = false
      ∧ (Sample.lastRoundTwoCommits.processCommitMessage Sample.env
          (Sample.commit Sample.lastRound 3 13)).consensus.state = State.Finished
      ∧ (Sample.lastRoundTwoCommits.processCommitMessage Sample.env
          (Sample.commit Sample.lastRound 3 13)).consensus.consensusID = 0) :=
  ⟨⟨Reachable.of_run Sample.env
      [Input.block Sample.candidate,
       Input.payload (Sample.marshal (Sample.commit Sample.announced 1 11)),
       Input.payload (Sample.marshal (Sample.commit Sample.announced 2 12))]
      Sample.leader (Reachable.reset Sample.leader) (by decide),
    by decide⟩, by decide⟩

/-- C7, amended (commit-quorum finalization and reset). In a state other than
CommittedDone whose stored block decodes, whose prepare aggregate is set,
whose `OnConsensusDone` callback is set and whose `commitSigs` holds `q - 1`
entries, `q = (2*|PublicKeys|)/3 + 1`, a valid COMMIT from a validator of the
view that is not yet in `commitSigs` finalizes the round: the handler returns,
the state is Finished, both signature maps are empty, both bitmaps are fresh
masks, both aggregates are cleared, `consensusID` is the old one plus 1 as a
`uint32` (modulo `2^32`), and the sends are, in order, the COMMITTED
broadcast, one block, the decoded one, offered on VerifiedNewBlock, the dump
of that block under the old `consensusID`, the `OnConsensusDone` call and one
ready signal. -/
theorem commit_quorum_finalizes (env : Env) (c : Consensus) (m : Message) (peer : Peer)
    (sign agg : Sign) (decoded : Block)
    (hpeer : c.getValidatorPeerByID m.senderID = some peer)
    (hvalid : c.validCommit env m peer sign)
    (hnew : c.commitSigs.contains m.senderID = false)
    (hstate : c.state ≠ State.CommittedDone)
    (hdec : env.DecodeBytes c.block = some decoded)
    (hagg : c.aggregatedPrepareSig = some agg)
    (hcall : c.OnConsensusDone = true)
    (hlen : c.commitSigs.length = ((c.PublicKeys.length * 2) / 3 + 1) - 1) :
    (c.processCommitMessage env m).fault = false
    ∧ (c.processCommitMessage env m).consensus.state = State.Finished
    ∧ (c.processCommitMessage env m).consensus.prepareSigs = []
    ∧ (c.processCommitMessage env m).consensus.commitSigs = []
    ∧ (c.processCommitMessage env m).consensus.prepareBitmap
        = env.NewMask c.PublicKeys c.pubKey
    ∧ (c.processCommitMessage env m).consensus.commitBitmap
        = env.NewMask c.PublicKeys c.pubKey
    ∧ (c.processCommitMessage env m).consensus.aggregatedPrepareSig = none
    ∧ (c.processCommitMessage env m).consensus.aggregatedCommitSig = none
    ∧ (c.processCommitMessage env m).consensus.consensusID
        = (c.consensusID + 1) % 4294967296
    ∧ ∃ msg, (c.processCommitMessage env m).out
          = [Effect.broadcast env.UseLibP2P msg, Effect.verifiedNewBlock decoded,
              Effect.dump decoded c.consensusID, Effect.onConsensusDone decoded,
              Effect.readySignal]
        ∧ msg.type = MessageType.COMMITTED
        ∧ msg.consensusID = c.consensusID := by
  have hlt : c.commitSigs.length < c.quorum := by unfold Consensus.quorum; omega
  have hq : c.quorum ≤ c.commitSigs.length + 1 := by unfold Consensus.quorum; omega
  rw [processCommitMessage_of_valid env c m peer sign hpeer hvalid hnew hlt,
    if_pos ⟨hq, hstate⟩]
  have hdec2 : env.DecodeBytes (c.recordCommit m.senderID sign peer.PubKey).block
      = some decoded := hdec
  have hagg2 : (c.recordCommit m.senderID sign peer.PubKey).aggregatedPrepareSig = some agg :=
    hagg
  have hcall2 : (c.recordCommit m.senderID sign peer.PubKey).OnConsensusDone = true := hcall
  rw [Consensus.finalize_of_return env _ decoded agg hdec2 hagg2 hcall2]
  refine ⟨rfl, rfl, rfl, rfl, rfl, rfl, rfl, rfl, rfl, _, rfl, ?_, ?_⟩
  · simp [Consensus.constructCommittedMessage, Consensus.signed]
  · simp [Consensus.constructCommittedMessage, Consensus.signed, Consensus.recordCommit]

/-- C7, amended, on the messages of `TestProcessMessageLeaderCommit`: N = 4, a
leader preloaded in PreparedDone with its block, its prepare aggregate and its
callback, three validators each sending a valid COMMIT; the third one
finalizes round 0. -/
theorem commit_quorum_finalizes_witness :
    Sample.afterTwoCommits.state = State.PreparedDone
      ∧ Sample.afterTwoCommits.PublicKeys.length = 4
      ∧ Sample.afterTwoCommits.commitSigs.length = 2
      ∧ Sample.afterTwoCommits.validCommit Sample.env (Sample.commit Sample.preloaded 3 13)
          ⟨13⟩ [13, 3, 267]
      ∧ (Sample.afterTwoCommits.processCommitMessage Sample.env
          (Sample.commit Sample.preloaded 3 13)).consensus.state = State.Finished
      ∧ (Sample.afterTwoCommits.processCommitMessage Sample.env
          (Sample.commit Sample.preloaded 3 13)).consensus.consensusID = (0 + 1) % 4294967296 :=
  ⟨by decide, by decide, by decide, by decide,
    (commit_quorum_finalizes Sample.env Sample.afterTwoCommits
      (Sample.commit Sample.preloaded 3 13) ⟨13⟩ [13, 3, 267] [1, 266] ⟨[42], [], [], [], []⟩
      (by decide) (by decide) (by decide) (by decide) (by decide) (by decide) (by decide)
      (by decide)).2.1,
    (commit_quorum_finalizes Sample.env Sample.afterTwoCommits
      (Sample.commit Sample.preloaded 3 13) ⟨13⟩ [13, 3, 267] [1, 266] ⟨[42], [], [], [], []⟩
      (by decide) (by decide) (by decide) (by decide) (by decide) (by decide) (by decide)
      (by decide)).2.2.2.2.2.2.2.2.1⟩

/-! ## The commit handler has no state gate -/

/-- C8, as stated, fails on the code: the sample leader in Finished, and the
sample leader in AnnounceDone right after the start of a round, each record
the COMMIT of validator 1 in `commitSigs` although PREPARED has not been
broadcast. -/
theorem commit_recorded_before_prepared :
    (Reachable Sample.env Sample.leader
      ∧ Sample.leader.state = State.Finished
      ∧ Sample.leader.commitSigs.contains 1 = false
      ∧ (Sample.leader.processCommitMessage Sample.env
          (Sample.commit Sample.leader 1 11)).consensus.commitSigs.contains 1 = true
      ∧ (Sample.leader.processCommitMessage Sample.env
          (Sample.commit Sample.leader 1 11)).consensus.state = State.Finished)
    ∧ (Reachable Sample.env Sample.announced
      ∧ Sample.announced.state = State.AnnounceDone
      ∧ Sample.announced.commitSigs.contains 1 = false
      ∧ (Sample.announced.processCommitMessage Sample.env
          (Sample.commit Sample.announced 1 11)).consensus.commitSigs.contains 1 = true
      ∧ (Sample.announced.processCommitMessage Sample.env
          (Sample.commit Sample.announced 1 11)).consensus.state = State.AnnounceDone) :=
  ⟨⟨Reachable.reset Sample.leader, by decide⟩,
    ⟨Reachable.of_run Sample.env [Input.block Sample.candidate] Sample.leader
      (Reachable.reset Sample.leader) (by decide), by decide⟩⟩

/-- C8, amended (no state gate on COMMIT). In every state, Finished and
AnnounceDone included, `processCommitMessage` records in `commitSigs` the
signature of a COMMIT that comes from a validator of the view, passes the
envelope check, is not yet in `commitSigs`, arrives below the quorum and
verifies on the aggregate of the collected prepare signatures followed by the
prepare bitmap. Below the quorum the entry is all that changes; at the quorum,
in any state but CommittedDone, the COMMITTED broadcast goes out with the
aggregate of the map that holds the new entry; at the quorum in CommittedDone
the entry is again all that changes. The state is read only by the test of
line 253. -/
theorem commit_recorded_in_every_state (env : Env) (c : Consensus) (m : Message) (peer : Peer)
    (sign : Sign) (hpeer : c.getValidatorPeerByID m.senderID = some peer)
    (hvalid : c.validCommit env m peer sign)
    (hnew : c.commitSigs.contains m.senderID = false)
    (hlt : c.commitSigs.length < (c.PublicKeys.length * 2) / 3 + 1) :
    (c.commitSigs.length + 1 < (c.PublicKeys.length * 2) / 3 + 1 →
      (c.processCommitMessage env m).fault = false
      ∧ (c.processCommitMessage env m).out = []
      ∧ (c.processCommitMessage env m).consensus
          = { c with
              commitSigs := c.commitSigs ++ [(m.senderID, sign)]
              commitBitmap := Mask.SetKey c.PublicKeys c.commitBitmap peer.PubKey })
    ∧ ((c.PublicKeys.length * 2) / 3 + 1 ≤ c.commitSigs.length + 1 →
      c.state ≠ State.CommittedDone →
      ∃ msg, (c.processCommitMessage env m).out.head? = some (Effect.broadcast env.UseLibP2P msg)
        ∧ msg.type = MessageType.COMMITTED
        ∧ msg.payload
            = env.Serialize (env.AggregateSig (c.commitSigs ++ [(m.senderID, sign)]).sigs)
              ++ Mask.Bitmap c.PublicKeys.length
                  (Mask.SetKey c.PublicKeys c.commitBitmap peer.PubKey))
    ∧ ((c.PublicKeys.length * 2) / 3 + 1 ≤ c.commitSigs.length + 1 →
      c.state = State.CommittedDone →
      (c.processCommitMessage env m).fault = false
      ∧ (c.processCommitMessage env m).out = []
      ∧ (c.processCommitMessage env m).consensus
          = { c with
              commitSigs := c.commitSigs ++ [(m.senderID, sign)]
              commitBitmap := Mask.SetKey c.PublicKeys c.commitBitmap peer.PubKey }) := by
  have hset := SigMap.set_of_not_contains c.commitSigs m.senderID sign hnew
  have hlt2 : c.commitSigs.length < c.quorum := hlt
  refine ⟨?_, ?_, ?_⟩
  · intro hbelow
    have hq : ¬ (c.quorum ≤ c.commitSigs.length + 1 ∧ c.state ≠ State.CommittedDone) := by
      unfold Consensus.quorum; omega
    rw [processCommitMessage_of_valid env c m peer sign hpeer hvalid hnew hlt2, if_neg hq]
    refine ⟨rfl, rfl, ?_⟩
    simp [Consensus.recordCommit, hset]
  · intro hq hstate
    rw [processCommitMessage_of_valid env c m peer sign hpeer hvalid hnew hlt2,
      if_pos ⟨hq, hstate⟩]
    refine ⟨((c.recordCommit m.senderID sign peer.PubKey).constructCommittedMessage env).1,
      ?_, ?_, ?_⟩
    · cases hdec : env.DecodeBytes (c.recordCommit m.senderID sign peer.PubKey).block <;>
        cases hagg : (c.recordCommit m.senderID sign peer.PubKey).aggregatedPrepareSig <;>
        cases hcall : (c.recordCommit m.senderID sign peer.PubKey).OnConsensusDone <;>
        simp [Consensus.finalize, hdec, hagg, hcall]
    · simp [Consensus.constructCommittedMessage, Consensus.signed]
    · simp [Consensus.constructCommittedMessage, Consensus.signed, Consensus.recordCommit,
        Consensus.GetCommitSigsArray, hset]
  · intro _ hstate
    have hq : ¬ (c.quorum ≤ c.commitSigs.length + 1 ∧ c.state ≠ State.CommittedDone) :=
      fun h => h.2 hstate
    rw [processCommitMessage_of_valid env c m peer sign hpeer hvalid hnew hlt2, if_neg hq]
    refine ⟨rfl, rfl, ?_⟩
    simp [Consensus.recordCommit, hset]

/-- C8, amended, on the sample leader in Finished: the COMMIT of validator 1 is
recorded. -/
theorem commit_recorded_in_every_state_witness :
    Sample.leader.state = State.Finished
      ∧ Sample.leader.validCommit Sample.env (Sample.commit Sample.leader 1 11) ⟨11⟩ [11, 2, 0]
      ∧ (Sample.leader.processCommitMessage Sample.env
          (Sample.commit Sample.leader 1 11)).consensus
          = { Sample.leader with commitSigs := [(1, [11, 2, 0])], commitBitmap := 1 } :=
  ⟨by decide, by decide,
    ((commit_recorded_in_every_state Sample.env Sample.leader
      (Sample.commit Sample.leader 1 11) ⟨11⟩ [11, 2, 0] (by decide) (by decide) (by decide)
      (by decide)).1 (by decide)).2.2⟩

/-! ## Executions: what one input can do -/

theorem Consensus.startConsensus_eq (env : Env) (c : Consensus) (b : NewBlock) :
    (b.encoded = none
      ∧ c.startConsensus env b = ⟨{ c with blockHash := b.hash }, [], false⟩)
    ∨ ∃ enc msg, b.encoded = some enc
      ∧ msg.type = MessageType.ANNOUNCE
      ∧ c.startConsensus env b =
        ⟨{ c with
            blockHash := b.hash
            block := enc
            state := State.AnnounceDone
            prepareSigs := c.prepareSigs.set c.nodeID (env.SignHash c.priKey b.hash) },
          [Effect.broadcast env.UseLibP2P msg], false⟩ := by
  cases h : b.encoded with
  | none => left; simp [Consensus.startConsensus, h]
  | some enc =>
    right
    refine ⟨enc,
      Consensus.constructAnnounceMessage env { c with blockHash := b.hash, block := enc },
      rfl, ?_, ?_⟩
    · simp [Consensus.constructAnnounceMessage, Consensus.signed]
    · simp only [Consensus.startConsensus, h]

/-- The six things one input can do to a leader object. -/
theorem Consensus.step_cases (env : Env) (c : Consensus) (i : Input) :
    c.step env i = ⟨c, [], false⟩
    ∨ c.step env i = ⟨c, [], true⟩
    ∨ (∃ b, c.state = State.Finished
        ∧ c.step env i = (c.ResetState env).startConsensus env b)
    ∨ (∃ m peer sign, c.getValidatorPeerByID m.senderID = some peer
        ∧ c.validPrepare env m peer sign
        ∧ c.prepareSigs.contains m.senderID = false
        ∧ c.prepareSigs.length < c.quorum
        ∧ ((c.quorum ≤ c.prepareSigs.length + 1 ∧ c.state.toNat < State.PreparedDone.toNat
              ∧ c.step env i = (c.recordPrepare m.senderID sign peer.PubKey).announcePrepared env)
          ∨ c.step env i = ⟨c.recordPrepare m.senderID sign peer.PubKey, [], false⟩))
    ∨ (∃ m peer sign, c.getValidatorPeerByID m.senderID = some peer
        ∧ c.validCommit env m peer sign
        ∧ c.commitSigs.contains m.senderID = false
        ∧ c.commitSigs.length < c.quorum
        ∧ ((c.quorum ≤ c.commitSigs.length + 1 ∧ c.state ≠ State.CommittedDone
              ∧ c.step env i = (c.recordCommit m.senderID sign peer.PubKey).finalize env)
          ∨ c.step env i = ⟨c.recordCommit m.senderID sign peer.PubKey, [], false⟩)) := by
  cases i with
  | block b =>
    simp only [Consensus.step, Consensus.WaitForNewBlock]
    by_cases h1 : c.HasEnoughValidators = true
    swap
    · left; simp [h1]
    by_cases h2 : c.state = State.Finished
    · right; right; left
      exact ⟨b, h2, by simp [h1, h2]⟩
    · left; simp [h1, h2]
  | payload bytes =>
    simp only [Consensus.step, Consensus.ProcessMessageLeader]
    cases ht : (env.Unmarshal bytes).type
    case PREPARE =>
      simp only []
      rcases processPrepareMessage_cases env c (env.Unmarshal bytes) with
        h | h | ⟨peer, sign, hp, hv, hn, hl, h⟩
      · right; left; exact h.2
      · left; exact h.2
      · right; right; right; left
        have hlen : (c.recordPrepare (env.Unmarshal bytes).senderID sign peer.PubKey).prepareSigs.length
            = c.prepareSigs.length + 1 := SigMap.length_set_of_not_contains _ _ _ hn
        rw [hlen] at h
        refine ⟨_, peer, sign, hp, hv, hn, hl, ?_⟩
        rcases h with ⟨h1, h2, h3⟩ | ⟨_, h3⟩
        · exact Or.inl ⟨h1, h2, h3⟩
        · exact Or.inr h3
    case COMMIT =>
      simp only []
      rcases processCommitMessage_cases env c (env.Unmarshal bytes) with
        h | h | ⟨peer, sign, hp, hv, hn, hl, h⟩
      · right; left; exact h.2
      · left; exact h.2
      · right; right; right; right
        have hlen : (c.recordCommit (env.Unmarshal bytes).senderID sign peer.PubKey).commitSigs.length
            = c.commitSigs.length + 1 := SigMap.length_set_of_not_contains _ _ _ hn
        rw [hlen] at h
        refine ⟨_, peer, sign, hp, hv, hn, hl, ?_⟩
        rcases h with ⟨h1, h2, h3⟩ | ⟨_, h3⟩
        · exact Or.inl ⟨h1, h2, h3⟩
        · exact Or.inr h3
    all_goals (left; rfl)

/-! ## Quorum safety -/

theorem Consensus.prepareEntryValid_congr (env : Env) (c d : Consensus) (e : Nat × Sign)
    (h1 : d.nodeID = c.nodeID) (h2 : d.priKey = c.priKey) (h3 : d.blockHash = c.blockHash)
    (h4 : d.validators = c.validators) :
    d.prepareEntryValid env e = c.prepareEntryValid env e := by
  simp [Consensus.prepareEntryValid, Consensus.getValidatorPeerByID, h1, h2, h3, h4]

theorem Consensus.prepareSigsValid_recordPrepare (env : Env) (c : Consensus) (m : Message)
    (peer : Peer) (sign : Sign) (hpeer : c.getValidatorPeerByID m.senderID = some peer)
    (hvalid : c.validPrepare env m peer sign)
    (hnew : c.prepareSigs.contains m.senderID = false) (h : c.prepareSigsValid env) :
    (c.recordPrepare m.senderID sign peer.PubKey).prepareSigsValid env := by
  intro entry hentry
  rw [Consensus.prepareEntryValid_congr env c (c.recordPrepare m.senderID sign peer.PubKey)
    entry rfl rfl rfl rfl]
  have hset : (c.recordPrepare m.senderID sign peer.PubKey).prepareSigs
      = c.prepareSigs ++ [(m.senderID, sign)] := SigMap.set_of_not_contains _ _ _ hnew
  rw [hset, List.mem_append, List.mem_singleton] at hentry
  rcases hentry with hold | rfl
  · exact h entry hold
  · simp [Consensus.prepareEntryValid, hpeer, hvalid.2.2]

theorem Consensus.prepareSigsValid_announcePrepared (env : Env) (c : Consensus)
    (h : c.prepareSigsValid env) : (c.announcePrepared env).consensus.prepareSigsValid env := by
  intro entry hentry
  rw [Consensus.prepareEntryValid_congr env c (c.announcePrepared env).consensus
    entry rfl rfl rfl rfl]
  exact h entry hentry

theorem Consensus.prepareSigsValid_step (env : Env) (c : Consensus) (i : Input)
    (h : c.prepareSigsValid env) (hf : (c.step env i).fault = false) :
    (c.step env i).consensus.prepareSigsValid env := by
  rcases Consensus.step_cases env c i with
    hs | hs | ⟨b, _, hs⟩ | ⟨m, peer, sign, hp, hv, hn, _, hs⟩ | ⟨m, peer, sign, _, _, _, _, hs⟩
  · rw [hs]; exact h
  · rw [hs] at hf; exact absurd hf (by simp)
  · rw [hs]
    rcases Consensus.startConsensus_eq env (c.ResetState env) b with
      ⟨_, he⟩ | ⟨enc, msg, _, _, he⟩
    · rw [he]; intro entry hentry
      simp [Consensus.ResetState] at hentry
    · rw [he]; intro entry hentry
      simp only [Consensus.ResetState, SigMap.set, SigMap.contains, List.any_nil,
        Bool.false_eq_true, if_false, List.nil_append, List.mem_singleton] at hentry
      subst hentry
      simp [Consensus.prepareEntryValid, Consensus.ResetState]
  · have hrec := Consensus.prepareSigsValid_recordPrepare env c m peer sign hp hv hn h
    rcases hs with ⟨_, _, hs⟩ | hs
    · rw [hs]; exact Consensus.prepareSigsValid_announcePrepared env _ hrec
    · rw [hs]; exact hrec
  · rcases hs with ⟨_, _, hs⟩ | hs
    · rw [hs] at hf ⊢
      obtain ⟨decoded, agg, _, _, _, hfin⟩ := Consensus.finalize_returns env _ hf
      rw [hfin]
      intro entry hentry
      simp [Consensus.nextRound, Consensus.ResetState] at hentry
    · rw [hs]
      intro entry hentry
      rw [Consensus.prepareEntryValid_congr env c (c.recordCommit m.senderID sign peer.PubKey)
        entry rfl rfl rfl rfl]
      exact h entry hentry

theorem Reachable.prepareSigsValid (env : Env) (c : Consensus) (h : Reachable env c) :
    c.prepareSigsValid env := by
  induction h with
  | reset c => intro entry hentry; simp [Consensus.ResetState] at hentry
  | step c i _ hf ih => exact Consensus.prepareSigsValid_step env c i ih hf

/-- C1 (quorum safety). In every execution, whenever `processPrepareMessage`
broadcasts PREPARED, `prepareSigs` holds at least `q = (2*N)/3 + 1` entries,
`N = |PublicKeys|`, and each entry is either the leader's own signature over
the block hash or a signature that verifies on the block hash under the key of
the validator it is filed under; whenever `processCommitMessage` broadcasts
COMMITTED, `commitSigs`, as extended at line 248 by the signature the message
carries, holds at least `q` entries. -/
theorem quorum_safety (env : Env) (c : Consensus) (hreach : Reachable env c) (m : Message) :
    ((∃ e ∈ (c.processPrepareMessage env m).out, e.isBroadcastOf MessageType.PREPARED = true) →
      (c.PublicKeys.length * 2) / 3 + 1
          ≤ (c.processPrepareMessage env m).consensus.prepareSigs.length
      ∧ ∀ entry ∈ (c.processPrepareMessage env m).consensus.prepareSigs,
          (c.processPrepareMessage env m).consensus.prepareEntryValid env entry = true)
    ∧ ((∃ e ∈ (c.processCommitMessage env m).out, e.isBroadcastOf MessageType.COMMITTED = true) →
      ∃ sign, env.Deserialize m.payload = some sign
        ∧ (c.PublicKeys.length * 2) / 3 + 1 ≤ (c.commitSigs.set m.senderID sign).length) := by
  have hinv := Reachable.prepareSigsValid env c hreach
  constructor
  · rintro ⟨e, he, _⟩
    rcases processPrepareMessage_cases env c m with h | h | ⟨peer, sign, hp, hv, hn, _, h⟩
    · rw [h.2] at he; simp at he
    · rw [h.2] at he; simp at he
    · rcases h with ⟨hq, _, h⟩ | ⟨_, h⟩
      · rw [h]
        exact ⟨hq, Consensus.prepareSigsValid_announcePrepared env _
          (Consensus.prepareSigsValid_recordPrepare env c m peer sign hp hv hn hinv)⟩
      · rw [h] at he; simp at he
  · rintro ⟨e, he, _⟩
    rcases processCommitMessage_cases env c m with h | h | ⟨peer, sign, _, hv, _, _, h⟩
    · rw [h.2] at he; simp at he
    · rw [h.2] at he; simp at he
    · rcases h with ⟨hq, _, _⟩ | ⟨_, h⟩
      · exact ⟨sign, hv.2.1, hq⟩
      · rw [h] at he; simp at he

/-- C1 on the sample leader: the third PREPARE is broadcast-triggering, and the
map then holds the quorum of 3. -/
theorem quorum_safety_witness :
    Reachable Sample.env Sample.afterTwoPrepares
      ∧ (∃ e ∈ (Sample.afterTwoPrepares.processPrepareMessage Sample.env
            (Sample.prepare Sample.leader 3 13)).out,
          e.isBroadcastOf MessageType.PREPARED = true)
      ∧ 3 ≤ Sample.afterThreePrepares.prepareSigs.length :=
  have hreach : Reachable Sample.env Sample.afterTwoPrepares :=
    Reachable.of_run Sample.env
      [Input.payload (Sample.marshal (Sample.prepare Sample.leader 1 11)),
       Input.payload (Sample.marshal (Sample.prepare Sample.leader 2 12))]
      Sample.leader (Reachable.reset Sample.leader) (by decide)
  ⟨hreach, by decide,
    ((quorum_safety Sample.env Sample.afterTwoPrepares hreach
      (Sample.prepare Sample.leader 3 13)).1 (by decide)).1⟩

/-! ## At most one broadcast per phase and round -/

theorem broadcastCount_nil (t : MessageType) : broadcastCount t [] = 0 := rfl

theorem broadcastCount_append (t : MessageType) (xs ys : List Effect) :
    broadcastCount t (xs ++ ys) = broadcastCount t xs + broadcastCount t ys := by
  simp [broadcastCount, List.countP_append]

theorem broadcastCount_announcePrepared (env : Env) (c : Consensus) (t : MessageType) :
    broadcastCount t (c.announcePrepared env).out
      = if MessageType.PREPARED = t then 1 else 0 := by
  simp only [broadcastCount, Consensus.announcePrepared, Consensus.constructPreparedMessage,
    Consensus.signed, List.countP_cons, List.countP_nil, Effect.isBroadcastOf]
  simp only [beq_iff_eq, Nat.zero_add]

theorem broadcastCount_finalize (env : Env) (c : Consensus) (t : MessageType) :
    broadcastCount t (c.finalize env).out
      = if MessageType.COMMITTED = t then 1 else 0 := by
  cases hdec : env.DecodeBytes c.block <;> cases hagg : c.aggregatedPrepareSig <;>
    cases hcall : c.OnConsensusDone <;>
    simp [Consensus.finalize, hdec, hagg, hcall, broadcastCount, List.countP_cons,
      Effect.isBroadcastOf, Consensus.constructCommittedMessage, Consensus.signed]

theorem broadcastCount_startConsensus (env : Env) (c : Consensus) (b : NewBlock)
    (t : MessageType) (ht : t ≠ MessageType.ANNOUNCE) :
    broadcastCount t (c.startConsensus env b).out = 0 := by
  rcases Consensus.startConsensus_eq env c b with ⟨_, he⟩ | ⟨enc, msg, _, hm, he⟩
  · rw [he]; rfl
  · rw [he]
    simp only [broadcastCount, List.countP_cons, List.countP_nil, Effect.isBroadcastOf, hm]
    have : (MessageType.ANNOUNCE == t) = false := by
      simpa using fun h => ht h.symm
    simp [this]

/-- The increment of a `uint32` never gives the number back. -/
theorem succ_mod_ne (n : Nat) : (n + 1) % 4294967296 ≠ n := by omega

/-- A finalization that returns has changed `consensusID`. -/
theorem Consensus.finalize_changes_round (env : Env) (c : Consensus)
    (hf : (c.finalize env).fault = false) :
    (c.finalize env).consensus.consensusID ≠ c.consensusID := by
  obtain ⟨decoded, agg, _, _, _, hfin⟩ := Consensus.finalize_returns env c hf
  rw [hfin]
  exact succ_mod_ne c.consensusID

/-- One input: the PREPARED broadcasts. The input sends at most one; if it
sends one, it leaves the state at PreparedDone; from PreparedDone on no input
sends one, and the state stays there until a fault or a new `consensusID`. -/
theorem Consensus.step_prepared (env : Env) (c : Consensus) (i : Input) :
    broadcastCount MessageType.PREPARED (c.step env i).out ≤ 1
    ∧ (0 < broadcastCount MessageType.PREPARED (c.step env i).out →
        State.PreparedDone.toNat ≤ (c.step env i).consensus.state.toNat)
    ∧ (State.PreparedDone.toNat ≤ c.state.toNat →
        broadcastCount MessageType.PREPARED (c.step env i).out = 0
        ∧ ((c.step env i).fault = false →
            (c.step env i).consensus.consensusID = c.consensusID →
            State.PreparedDone.toNat ≤ (c.step env i).consensus.state.toNat)) := by
  rcases Consensus.step_cases env c i with
    hs | hs | ⟨b, hfin, hs⟩ | ⟨m, peer, sign, _, _, _, _, hs⟩ | ⟨m, peer, sign, _, _, _, _, hs⟩
  · rw [hs]; simp [broadcastCount_nil]
  · rw [hs]; simp [broadcastCount_nil]
  · rw [hs, broadcastCount_startConsensus env _ b _ (by decide)]
    refine ⟨by omega, by omega, fun hc => ?_⟩
    rw [hfin] at hc; simp [State.toNat] at hc
  · rcases hs with ⟨_, hlt, hs⟩ | hs
    · rw [hs, broadcastCount_announcePrepared, if_pos rfl]
      refine ⟨Nat.le_refl _, fun _ => Nat.le_refl _, fun hc => ?_⟩
      omega
    · rw [hs]
      refine ⟨by simp [broadcastCount_nil], by simp [broadcastCount_nil], fun hc => ?_⟩
      exact ⟨rfl, fun _ _ => hc⟩
  · rcases hs with ⟨_, _, hs⟩ | hs
    · rw [hs, broadcastCount_finalize, if_neg (by decide)]
      refine ⟨by omega, by omega, fun _ => ⟨rfl, fun hf hid => ?_⟩⟩
      exact absurd hid (Consensus.finalize_changes_round env _ hf)
    · rw [hs]
      refine ⟨by simp [broadcastCount_nil], by simp [broadcastCount_nil], fun hc => ?_⟩
      exact ⟨rfl, fun _ _ => hc⟩

/-- One input: the COMMITTED broadcasts. The input sends at most one, and if it
sends one it ends in a fault or with a new `consensusID`. -/
theorem Consensus.step_committed (env : Env) (c : Consensus) (i : Input) :
    broadcastCount MessageType.COMMITTED (c.step env i).out ≤ 1
    ∧ (0 < broadcastCount MessageType.COMMITTED (c.step env i).out →
        (c.step env i).fault = false →
        (c.step env i).consensus.consensusID ≠ c.consensusID) := by
  rcases Consensus.step_cases env c i with
    hs | hs | ⟨b, hfin, hs⟩ | ⟨m, peer, sign, _, _, _, _, hs⟩ | ⟨m, peer, sign, _, _, _, _, hs⟩
  · rw [hs]; simp [broadcastCount_nil]
  · rw [hs]; simp [broadcastCount_nil]
  · rw [hs, broadcastCount_startConsensus env _ b _ (by decide)]
    exact ⟨by omega, by omega⟩
  · rcases hs with ⟨_, _, hs⟩ | hs
    · rw [hs, broadcastCount_announcePrepared, if_neg (by decide)]
      exact ⟨by omega, by omega⟩
    · rw [hs]
      exact ⟨by simp [broadcastCount_nil], by simp [broadcastCount_nil]⟩
  · rcases hs with ⟨_, _, hs⟩ | hs
    · rw [hs, broadcastCount_finalize, if_pos rfl]
      exact ⟨Nat.le_refl _, fun _ hf => Consensus.finalize_changes_round env _ hf⟩
    · rw [hs]
      exact ⟨by simp [broadcastCount_nil], by simp [broadcastCount_nil]⟩

theorem Consensus.startConsensus_ids (env : Env) (c : Consensus) (b : NewBlock)
    (v : Bool) (msg : Message) (h : Effect.broadcast v msg ∈ (c.startConsensus env b).out) :
    msg.consensusID = c.consensusID := by
  cases hb : b.encoded with
  | none => simp [Consensus.startConsensus, hb] at h
  | some enc =>
    simp only [Consensus.startConsensus, hb, List.mem_singleton, Effect.broadcast.injEq] at h
    rw [h.2]
    simp [Consensus.constructAnnounceMessage, Consensus.signed]

theorem Consensus.finalize_ids (env : Env) (c : Consensus) (v : Bool) (msg : Message)
    (h : Effect.broadcast v msg ∈ (c.finalize env).out) :
    msg.consensusID = c.consensusID := by
  have hm : msg = (c.constructCommittedMessage env).1 := by
    cases hdec : env.DecodeBytes c.block <;> cases hagg : c.aggregatedPrepareSig <;>
      cases hcall : c.OnConsensusDone <;>
      simp [Consensus.finalize, hdec, hagg, hcall] at h <;> exact h.2
  rw [hm]
  simp [Consensus.constructCommittedMessage, Consensus.signed]

/-- One input: every broadcast carries the `consensusID` the object had when
the input arrived. -/
theorem Consensus.step_ids (env : Env) (c : Consensus) (i : Input) (v : Bool) (msg : Message)
    (h : Effect.broadcast v msg ∈ (c.step env i).out) : msg.consensusID = c.consensusID := by
  rcases Consensus.step_cases env c i with
    hs | hs | ⟨b, hfin, hs⟩ | ⟨m, peer, sign, _, _, _, _, hs⟩ | ⟨m, peer, sign, _, _, _, _, hs⟩
  · rw [hs] at h; simp at h
  · rw [hs] at h; simp at h
  · rw [hs] at h
    exact Consensus.startConsensus_ids env (c.ResetState env) b v msg h
  · rcases hs with ⟨_, _, hs⟩ | hs
    · rw [hs] at h
      simp only [Consensus.announcePrepared, List.mem_singleton, Effect.broadcast.injEq] at h
      rw [h.2]
      simp [Consensus.constructPreparedMessage, Consensus.signed, Consensus.recordPrepare]
    · rw [hs] at h; simp at h
  · rcases hs with ⟨_, _, hs⟩ | hs
    · rw [hs] at h
      exact Consensus.finalize_ids env (c.recordCommit m.senderID sign peer.PubKey) v msg h
    · rw [hs] at h; simp at h

theorem Consensus.runRound_prepared (env : Env) (inputs : List Input) :
    ∀ c : Consensus,
      broadcastCount MessageType.PREPARED (c.runRound env inputs).out ≤ 1
      ∧ (State.PreparedDone.toNat ≤ c.state.toNat →
          broadcastCount MessageType.PREPARED (c.runRound env inputs).out = 0) := by
  induction inputs with
  | nil => intro c; simp [Consensus.runRound, broadcastCount_nil]
  | cons i rest ih =>
    intro c
    obtain ⟨h1, h2, h3⟩ := Consensus.step_prepared env c i
    simp only [Consensus.runRound]
    by_cases hf : (c.step env i).fault = true
    · simp only [hf, if_true]
      exact ⟨h1, fun hc => (h3 hc).1⟩
    · have hf2 : (c.step env i).fault = false := by simpa using hf
      simp only [hf2, Bool.false_eq_true, if_false]
      by_cases hid : (c.step env i).consensus.consensusID ≠ c.consensusID
      · rw [if_pos hid]
        exact ⟨h1, fun hc => (h3 hc).1⟩
      · rw [if_neg hid]
        have hid2 : (c.step env i).consensus.consensusID = c.consensusID := by
          simpa using hid
        simp only [broadcastCount_append]
        obtain ⟨ih1, ih2⟩ := ih (c.step env i).consensus
        constructor
        · by_cases hpos : 0 < broadcastCount MessageType.PREPARED (c.step env i).out
          · have := ih2 (h2 hpos)
            omega
          · omega
        · intro hc
          have := (h3 hc).1
          have := ih2 ((h3 hc).2 hf2 hid2)
          omega

theorem Consensus.runRound_committed (env : Env) (inputs : List Input) :
    ∀ c : Consensus, broadcastCount MessageType.COMMITTED (c.runRound env inputs).out ≤ 1 := by
  induction inputs with
  | nil => intro c; simp [Consensus.runRound, broadcastCount_nil]
  | cons i rest ih =>
    intro c
    obtain ⟨h1, h2⟩ := Consensus.step_committed env c i
    simp only [Consensus.runRound]
    by_cases hf : (c.step env i).fault = true
    · simp only [hf, if_true]
      exact h1
    · have hf2 : (c.step env i).fault = false := by simpa using hf
      simp only [hf2, Bool.false_eq_true, if_false]
      by_cases hid : (c.step env i).consensus.consensusID ≠ c.consensusID
      · rw [if_pos hid]
        exact h1
      · rw [if_neg hid]
        simp only [broadcastCount_append]
        have hzero : broadcastCount MessageType.COMMITTED (c.step env i).out = 0 := by
          by_cases hpos : 0 < broadcastCount MessageType.COMMITTED (c.step env i).out
          · exact absurd (h2 hpos hf2) hid
          · omega
        have := ih (c.step env i).consensus
        omega

theorem Consensus.runRound_ids (env : Env) (inputs : List Input) :
    ∀ c : Consensus, ∀ v msg, Effect.broadcast v msg ∈ (c.runRound env inputs).out →
      msg.consensusID = c.consensusID := by
  induction inputs with
  | nil => intro c v msg h; simp [Consensus.runRound] at h
  | cons i rest ih =>
    intro c v msg h
    simp only [Consensus.runRound] at h
    by_cases hf : (c.step env i).fault = true
    · simp only [hf, if_true] at h
      exact Consensus.step_ids env c i v msg h
    · have hf2 : (c.step env i).fault = false := by simpa using hf
      simp only [hf2, Bool.false_eq_true, if_false] at h
      by_cases hid : (c.step env i).consensus.consensusID ≠ c.consensusID
      · rw [if_pos hid] at h
        exact Consensus.step_ids env c i v msg h
      · rw [if_neg hid] at h
        have hid2 : (c.step env i).consensus.consensusID = c.consensusID := by
          simpa using hid
        rcases List.mem_append.1 h with h | h
        · exact Consensus.step_ids env c i v msg h
        · rw [← hid2]
          exact ih _ v msg h

/-- The inputs of a round are an initial part of the execution: `runRound`
is `run` on the inputs up to the one that ends the round. -/
theorem Consensus.runRound_eq_run (env : Env) (inputs : List Input) :
    ∀ c : Consensus, ∃ k, c.runRound env inputs = c.run env (inputs.take k) := by
  induction inputs with
  | nil => intro c; exact ⟨0, rfl⟩
  | cons i rest ih =>
    intro c
    by_cases hf : (c.step env i).fault = true
    · exact ⟨1, by simp [Consensus.runRound, Consensus.run, hf]⟩
    · have hf2 : (c.step env i).fault = false := by simpa using hf
      by_cases hid : (c.step env i).consensus.consensusID ≠ c.consensusID
      · refine ⟨1, ?_⟩
        simp only [Consensus.runRound, Consensus.run, hf2, Bool.false_eq_true, if_false,
          if_pos hid, List.take_succ_cons, List.take_zero, List.append_nil]
        rw [← hf2]
      · obtain ⟨k, hk⟩ := ih (c.step env i).consensus
        refine ⟨k + 1, ?_⟩
        simp only [Consensus.runRound, Consensus.run, hf2, Bool.false_eq_true, if_false,
          if_neg hid, List.take_succ_cons, hk]

/-- The bound of C2 is attained: in the round of the candidate block the two
PREPAREs that complete the quorum send one PREPARED, a third PREPARE and a
replay send none, and the round of the preloaded sample ends with the one
COMMITTED of its third COMMIT, before the inputs that follow it. -/
theorem sample_round_broadcasts_once :
    broadcastCount MessageType.PREPARED
        (Sample.leader.runRound Sample.env
          [Input.block Sample.candidate,
           Input.payload (Sample.marshal (Sample.prepare Sample.announced 1 11)),
           Input.payload (Sample.marshal (Sample.prepare Sample.announced 2 12)),
           Input.payload (Sample.marshal (Sample.prepare Sample.announced 3 13)),
           Input.payload (Sample.marshal (Sample.prepare Sample.announced 1 11))]).out = 1
      ∧ broadcastCount MessageType.COMMITTED
        (Sample.preloaded.runRound Sample.env
          [Input.payload (Sample.marshal (Sample.commit Sample.preloaded 1 11)),
           Input.payload (Sample.marshal (Sample.commit Sample.preloaded 2 12)),
           Input.payload (Sample.marshal (Sample.commit Sample.preloaded 3 13)),
           Input.block Sample.candidate]).out = 1
      ∧ (Sample.preloaded.runRound Sample.env
          [Input.payload (Sample.marshal (Sample.commit Sample.preloaded 1 11)),
           Input.payload (Sample.marshal (Sample.commit Sample.preloaded 2 12)),
           Input.payload (Sample.marshal (Sample.commit Sample.preloaded 3 13)),
           Input.block Sample.candidate]).consensus.consensusID = 1 := by
  decide

/-- C2 (at most one broadcast per phase). For every leader object and every
sequence of inputs handled from it within one `consensusID` (PREPARE and
COMMIT payloads, and candidate blocks taken by the feed coordinator, in order,
up to the first fault and up to the input that changes `consensusID`), the
sends hold at most one PREPARED broadcast and at most one COMMITTED broadcast;
every broadcast among them carries the `consensusID` of the round; and the
inputs so handled are an initial part of the execution from that object. -/
theorem at_most_one_broadcast_per_round (env : Env) (c : Consensus) (inputs : List Input) :
    broadcastCount MessageType.PREPARED (c.runRound env inputs).out ≤ 1
    ∧ broadcastCount MessageType.COMMITTED (c.runRound env inputs).out ≤ 1
    ∧ (∀ v msg, Effect.broadcast v msg ∈ (c.runRound env inputs).out →
        msg.consensusID = c.consensusID)
    ∧ ∃ k, c.runRound env inputs = c.run env (inputs.take k) :=
  ⟨(Consensus.runRound_prepared env inputs c).1, Consensus.runRound_committed env inputs c,
    Consensus.runRound_ids env inputs c, Consensus.runRound_eq_run env inputs c⟩

/-! ## Bitmaps and signature maps -/

theorem SigMap.contains_set (m : SigMap) (k j : Nat) (v : Sign) :
    (m.set k v).contains j = (m.contains j || j == k) := by
  unfold SigMap.set
  split
  · rename_i hk
    have hmap : SigMap.contains (m.map (fun e => if e.1 == k then (k, v) else e)) j
        = m.contains j := by
      simp only [SigMap.contains, List.any_map]
      congr 1
      funext e
      simp only [Function.comp]
      by_cases he : e.1 = k
      · simp [he]
      · simp [he]
    rw [hmap]
    by_cases hj : j = k
    · subst hj; simp [hk]
    · simp [hj]
  · have hkj : (k == j) = (j == k) := by
      by_cases h : k = j
      · subst h; rfl
      · have h2 : ¬ j = k := fun e => h e.symm
        simp [h, h2]
    simp [SigMap.contains, List.any_append, Bool.or_comm, hkj]

theorem Mask.testBit_SetKey (publics : List PublicKey) (m : Mask) (key : PublicKey) (i : Nat) :
    (Mask.SetKey publics m key).testBit i
      = (m.testBit i || decide (keyIndex publics key = some i)) := by
  unfold Mask.SetKey
  cases h : keyIndex publics key with
  | none => simp
  | some j =>
    simp only [Nat.testBit_or, Nat.testBit_two_pow, Option.some.injEq]

theorem entriesTracked_empty (validators : List (Nat × Peer)) (publics : List PublicKey)
    (nodeID : Nat) (bitmap : Mask) : entriesTracked validators publics nodeID [] bitmap := by
  intro id hid; simp [SigMap.contains] at hid

theorem entriesTracked_record (validators : List (Nat × Peer)) (publics : List PublicKey)
    (nodeID : Nat) (sigs : SigMap) (bitmap : Mask) (id : Nat) (peer : Peer) (sign : Sign)
    (hpeer : validators.lookup id = some peer)
    (h : entriesTracked validators publics nodeID sigs bitmap) :
    entriesTracked validators publics nodeID (sigs.set id sign)
      (Mask.SetKey publics bitmap peer.PubKey) := by
  intro j hj hne
  rw [SigMap.contains_set, Bool.or_eq_true, beq_iff_eq] at hj
  rcases hj with hj | hj
  · obtain ⟨p, hp, hbits⟩ := h j hj hne
    refine ⟨p, hp, fun i hi => ?_⟩
    rw [Mask.testBit_SetKey, hbits i hi]; rfl
  · subst hj
    refine ⟨peer, hpeer, fun i hi => ?_⟩
    rw [Mask.testBit_SetKey, Bool.or_eq_true, decide_eq_true_eq]
    exact Or.inr hi

theorem entriesTracked_own (validators : List (Nat × Peer)) (publics : List PublicKey)
    (nodeID : Nat) (sigs : SigMap) (bitmap : Mask) (sign : Sign)
    (h : entriesTracked validators publics nodeID sigs bitmap) :
    entriesTracked validators publics nodeID (sigs.set nodeID sign) bitmap := by
  intro j hj hne
  rw [SigMap.contains_set, Bool.or_eq_true, beq_iff_eq] at hj
  rcases hj with hj | hj
  · exact h j hj hne
  · exact absurd hj hne

theorem Consensus.bitmapsTrack_step (env : Env) (c : Consensus) (i : Input)
    (h : c.bitmapsTrack) (hf : (c.step env i).fault = false) :
    (c.step env i).consensus.bitmapsTrack := by
  rcases Consensus.step_cases env c i with
    hs | hs | ⟨b, _, hs⟩ | ⟨m, peer, sign, hp, _, _, _, hs⟩ | ⟨m, peer, sign, hp, _, _, _, hs⟩
  · rw [hs]; exact h
  · rw [hs] at hf; exact absurd hf (by simp)
  · rw [hs]
    rcases Consensus.startConsensus_eq env (c.ResetState env) b with
      ⟨_, he⟩ | ⟨enc, msg, _, _, he⟩
    · rw [he]; exact ⟨entriesTracked_empty _ _ _ _, entriesTracked_empty _ _ _ _⟩
    · rw [he]
      exact ⟨entriesTracked_own _ _ _ _ _ _ (entriesTracked_empty _ _ _ _),
        entriesTracked_empty _ _ _ _⟩
  · have hrec : (c.recordPrepare m.senderID sign peer.PubKey).bitmapsTrack :=
      ⟨entriesTracked_record _ _ _ _ _ _ peer sign hp h.1, h.2⟩
    rcases hs with ⟨_, _, hs⟩ | hs
    · rw [hs]
      exact ⟨hrec.1, entriesTracked_own _ _ _ _ _ _ hrec.2⟩
    · rw [hs]; exact hrec
  · rcases hs with ⟨_, _, hs⟩ | hs
    · rw [hs] at hf ⊢
      obtain ⟨decoded, agg, _, _, _, hfin⟩ := Consensus.finalize_returns env _ hf
      rw [hfin]
      exact ⟨entriesTracked_empty _ _ _ _, entriesTracked_empty _ _ _ _⟩
    · rw [hs]
      exact ⟨h.1, entriesTracked_record _ _ _ _ _ _ peer sign hp h.2⟩

/-- In every execution the validators' path keeps entry and bit together: an
entry filed under an ID other than the leader's belongs to a validator of the
view, and the bit of that validator's key is set (lines 178-179 and
248-250). -/
theorem Reachable.bitmapsTrack (env : Env) (c : Consensus) (h : Reachable env c) :
    c.bitmapsTrack := by
  induction h with
  | reset c => exact ⟨entriesTracked_empty _ _ _ _, entriesTracked_empty _ _ _ _⟩
  | step c i _ hf ih => exact Consensus.bitmapsTrack_step env c i ih hf

/-! ## Duplicates -/

/-- The duplicate test of lines 152-157 and 222-227, for a sender the view
holds. For a message from a validator of the view whose sender ID is already a
key of `prepareSigs` (resp. `commitSigs`), `processPrepareMessage` (resp.
`processCommitMessage`) returns with the whole consensus object unchanged and
no send, whatever payload and envelope signature the message carries: the test
looks at the validator ID only. A PREPARE that the leader accepts (valid, new
sender, tally below the quorum) adds exactly one entry to `prepareSigs`, and
delivering it a second time changes nothing and sends nothing. In every
execution the keys of the two maps other than the leader's own ID are
validators of the view, so there the replay of a message under such a key is
dropped with no further condition. -/
theorem replay_from_validator_is_dropped (env : Env) (c : Consensus) (m : Message) :
    (∀ peer, c.getValidatorPeerByID m.senderID = some peer →
      c.prepareSigs.contains m.senderID = true →
      ∀ payload signature,
        c.processPrepareMessage env { m with payload := payload, signature := signature }
          = ⟨c, [], false⟩)
    ∧ (∀ peer, c.getValidatorPeerByID m.senderID = some peer →
      c.commitSigs.contains m.senderID = true →
      ∀ payload signature,
        c.processCommitMessage env { m with payload := payload, signature := signature }
          = ⟨c, [], false⟩)
    ∧ (∀ peer sign, c.getValidatorPeerByID m.senderID = some peer →
        c.validPrepare env m peer sign → c.prepareSigs.contains m.senderID = false →
        c.prepareSigs.length < (c.PublicKeys.length * 2) / 3 + 1 →
        (c.processPrepareMessage env m).fault = false
        ∧ (c.processPrepareMessage env m).consensus.prepareSigs.length
            = c.prepareSigs.length + 1
        ∧ (c.processPrepareMessage env m).consensus.processPrepareMessage env m
            = ⟨(c.processPrepareMessage env m).consensus, [], false⟩)
    ∧ (Reachable env c → m.senderID ≠ c.nodeID →
        (c.prepareSigs.contains m.senderID = true →
          c.processPrepareMessage env m = ⟨c, [], false⟩)
        ∧ (c.commitSigs.contains m.senderID = true →
          c.processCommitMessage env m = ⟨c, [], false⟩)) := by
  refine ⟨?_, ?_, ?_, ?_⟩
  · intro peer hpeer hdup payload signature
    exact processPrepareMessage_of_contains env c _ peer hpeer hdup
  · intro peer hpeer hdup payload signature
    exact processCommitMessage_of_contains env c _ peer hpeer hdup
  · intro peer sign hpeer hvalid hnew hlt
    rw [processPrepareMessage_of_valid env c m peer sign hpeer hvalid hnew hlt]
    have hrec : (c.recordPrepare m.senderID sign peer.PubKey).prepareSigs.length
        = c.prepareSigs.length + 1 := SigMap.length_set_of_not_contains _ _ _ hnew
    have hcon : (c.recordPrepare m.senderID sign peer.PubKey).prepareSigs.contains m.senderID
        = true := SigMap.contains_set_self _ _ _
    split
    · refine ⟨rfl, hrec, ?_⟩
      exact processPrepareMessage_of_contains env _ m peer hpeer hcon
    · refine ⟨rfl, hrec, ?_⟩
      exact processPrepareMessage_of_contains env _ m peer hpeer hcon
  · intro hreach hne
    obtain ⟨hp, hc⟩ := Reachable.bitmapsTrack env c hreach
    constructor
    · intro hdup
      obtain ⟨peer, hpeer, _⟩ := hp m.senderID hdup hne
      exact processPrepareMessage_of_contains env c m peer hpeer hdup
    · intro hdup
      obtain ⟨peer, hpeer, _⟩ := hc m.senderID hdup hne
      exact processCommitMessage_of_contains env c m peer hpeer hdup

/-- The PREPARE of validator 1, delivered to the sample leader a second time,
is dropped. -/
theorem replay_from_validator_sample :
    Sample.afterOnePrepare.getValidatorPeerByID (Sample.prepare Sample.leader 1 11).senderID
        = some ⟨11⟩
      ∧ Sample.afterOnePrepare.prepareSigs.contains 1 = true
      ∧ Sample.afterOnePrepare.processPrepareMessage Sample.env
          (Sample.prepare Sample.leader 1 11) = ⟨Sample.afterOnePrepare, [], false⟩ :=
  ⟨by decide, by decide,
    (replay_from_validator_is_dropped Sample.env Sample.afterOnePrepare
      (Sample.prepare Sample.leader 1 11)).1 ⟨11⟩ (by decide) (by decide) _ _⟩

/-- C10 (bitmap and signature set), evaluated on the code. The sample leader
has N = 4 and its own key at canonical index 3. Whatever the libraries are,
and whichever bits a fresh mask carries: the reset leader and the leader after
the start of a round for the candidate block are both reachable; the first has
no entry of its own in `prepareSigs`, the second, after line 124, has one; and
bit 3 of `prepareBitmap` is the same in the two, since `startConsensus` files
the signature and sets no bit. So in one of the two objects entry and bit
disagree. With a fresh mask that is all clear, the started round has the
leader's entry in `prepareSigs` and the leader after the prepare quorum has the
leader's entry in `commitSigs` (line 200), each with bit 3 clear; with a fresh
mask that carries the bit of the key it is built for, the reset leader has bit
3 set in both bitmaps and no entry in either map. -/
theorem leader_entry_and_bit_disagree (env : Env) :
    (Reachable env (Sample.leader.ResetState env)
      ∧ Reachable env
          ((Sample.leader.ResetState env).WaitForNewBlock env Sample.candidate).consensus
      ∧ keyIndex Sample.leader.PublicKeys Sample.leader.pubKey = some 3
      ∧ (Sample.leader.ResetState env).prepareSigs.contains Sample.leader.nodeID = false
      ∧ ((Sample.leader.ResetState env).WaitForNewBlock env
          Sample.candidate).consensus.prepareSigs.contains Sample.leader.nodeID = true
      ∧ ((Sample.leader.ResetState env).WaitForNewBlock env
          Sample.candidate).consensus.prepareBitmap.testBit 3
          = (Sample.leader.ResetState env).prepareBitmap.testBit 3)
    ∧ (Sample.announced = ((Sample.leader.ResetState Sample.env).WaitForNewBlock Sample.env
          Sample.candidate).consensus
      ∧ Sample.announced.prepareSigs.contains Sample.announced.nodeID = true
      ∧ Sample.announced.prepareBitmap.testBit 3 = false
      ∧ Reachable Sample.env Sample.afterThreePrepares
      ∧ Sample.afterThreePrepares.commitSigs.contains Sample.afterThreePrepares.nodeID = true
      ∧ Sample.afterThreePrepares.commitBitmap.testBit 3 = false)
    ∧ ((Sample.leader.ResetState Sample.envOwnBit).prepareBitmap.testBit 3 = true
      ∧ (Sample.leader.ResetState Sample.envOwnBit).prepareSigs.contains Sample.leader.nodeID
          = false
      ∧ (Sample.leader.ResetState Sample.envOwnBit).commitBitmap.testBit 3 = true
      ∧ (Sample.leader.ResetState Sample.envOwnBit).commitSigs.contains Sample.leader.nodeID
          = false) := by
  have hfault : ((Sample.leader.ResetState env).step env (Input.block Sample.candidate)).fault
      = false := by
    simp [Consensus.step, Consensus.WaitForNewBlock, Consensus.HasEnoughValidators,
      Consensus.ResetState, Consensus.startConsensus, Sample.leader, Sample.candidate]
  refine ⟨⟨Reachable.reset Sample.leader,
    Reachable.step _ (Input.block Sample.candidate) (Reachable.reset Sample.leader) hfault,
    by decide, rfl, ?_, ?_⟩, ⟨by decide, by decide, by decide, ?_, by decide, by decide⟩,
    by decide⟩
  · simp [Consensus.WaitForNewBlock, Consensus.HasEnoughValidators,
      Consensus.ResetState, Consensus.startConsensus, Sample.leader, Sample.candidate,
      SigMap.set, SigMap.contains]
  · simp [Consensus.WaitForNewBlock, Consensus.HasEnoughValidators,
      Consensus.ResetState, Consensus.startConsensus, Sample.leader, Sample.candidate]
  · exact Reachable.of_run Sample.env
      [Input.payload (Sample.marshal (Sample.prepare Sample.leader 1 11)),
       Input.payload (Sample.marshal (Sample.prepare Sample.leader 2 12)),
       Input.payload (Sample.marshal (Sample.prepare Sample.leader 3 13))]
      Sample.leader (Reachable.reset Sample.leader) (by decide)

/-! ## The membership gate -/

/-- C12 (enough validators). `HasEnoughValidators` returns true if and only if
`|PublicKeys| >= MinPeers`, for every list of public keys and every integer
`MinPeers`; while it returns false the feed coordinator, given a block, leaves
the consensus object as it is and sends nothing, so no round is started. -/
theorem has_enough_validators_iff (c : Consensus) :
    (c.HasEnoughValidators = true ↔ c.MinPeers ≤ (c.PublicKeys.length : Int))
    ∧ (c.HasEnoughValidators = false →
        ∀ env newBlock, c.WaitForNewBlock env newBlock = ⟨c, [], false⟩) := by
  constructor
  · unfold Consensus.HasEnoughValidators
    split
    · rename_i h; simp; omega
    · rename_i h; simp; omega
  · intro h env newBlock
    simp [Consensus.WaitForNewBlock, h]

/-- C12 on the spec's scenario S6: with `MinPeers = 10` and three public keys
the gate is closed and a candidate block starts no round. -/
theorem has_enough_validators_iff_witness :
    Sample.understaffed.MinPeers = 10
      ∧ Sample.understaffed.PublicKeys.length = 3
      ∧ Sample.understaffed.HasEnoughValidators = false
      ∧ Sample.understaffed.WaitForNewBlock Sample.env Sample.candidate
          = ⟨Sample.understaffed, [], false⟩ :=
  ⟨by decide, by decide, by decide,
    (has_enough_validators_iff Sample.understaffed).2 (by decide) Sample.env Sample.candidate⟩

/-! ## The p2p content header -/

/-- C13 (content header). For every byte string `m`: `GetMessageCategory`
fails iff `len(m) < 1` and otherwise returns `m[0]`; `GetMessageType` fails iff
`len(m) < 2` and otherwise returns `m[1]`; `GetMessagePayload` fails iff
`len(m) < 2` and otherwise returns `m[2:]`; and for `len(m) >= 2` the category
byte, the type byte and the payload, put together, are `m`, the payload having
`len(m) - 2` bytes. -/
theorem content_header_layout (m : Bytes) :
    (P2P.failed (P2P.GetMessageCategory m) = true ↔ m.length < 1)
    ∧ (∀ h : 0 < m.length, P2P.GetMessageCategory m = Except.ok m[0])
    ∧ (P2P.failed (P2P.GetMessageType m) = true ↔ m.length < 2)
    ∧ (∀ h : 1 < m.length, P2P.GetMessageType m = Except.ok m[1])
    ∧ (P2P.failed (P2P.GetMessagePayload m) = true ↔ m.length < 2)
    ∧ (2 ≤ m.length → P2P.GetMessagePayload m = Except.ok (m.drop 2))
    ∧ (∀ h : 1 < m.length, [m[0], m[1]] ++ m.drop 2 = m ∧ (m.drop 2).length = m.length - 2) := by
  refine ⟨?_, ?_, ?_, ?_, ?_, ?_, ?_⟩
  · unfold P2P.GetMessageCategory P2P.NODE_TYPE_BYTES
    split <;> simp_all [P2P.failed]
  · intro h
    unfold P2P.GetMessageCategory P2P.NODE_TYPE_BYTES
    rw [if_neg (by omega)]
    simp [List.getD_eq_getElem?_getD, List.getElem?_eq_getElem h]
  · unfold P2P.GetMessageType P2P.NODE_TYPE_BYTES P2P.ACTION_TYPE_BYTES
    split <;> simp_all [P2P.failed]
  · intro h
    unfold P2P.GetMessageType P2P.NODE_TYPE_BYTES P2P.ACTION_TYPE_BYTES
    rw [if_neg (by omega)]
    simp [List.getD_eq_getElem?_getD, List.getElem?_eq_getElem h]
  · unfold P2P.GetMessagePayload P2P.NODE_TYPE_BYTES P2P.ACTION_TYPE_BYTES
    split <;> simp_all [P2P.failed]
  · intro h
    unfold P2P.GetMessagePayload P2P.NODE_TYPE_BYTES P2P.ACTION_TYPE_BYTES
    rw [if_neg (by omega)]
  · intro h
    match m, h with
    | a :: b :: rest, _ => simp

/-- C13 on a four-byte content: category 1, action type 0, payload `[5, 6]`. -/
theorem content_header_layout_witness :
    P2P.GetMessageCategory [1, 0, 5, 6] = Except.ok 1
      ∧ P2P.GetMessageType [1, 0, 5, 6] = Except.ok 0
      ∧ P2P.GetMessagePayload [1, 0, 5, 6] = Except.ok [5, 6]
      ∧ P2P.failed (P2P.GetMessageType [1]) = true :=
  ⟨(content_header_layout [1, 0, 5, 6]).2.1 (by decide),
    (content_header_layout [1, 0, 5, 6]).2.2.2.1 (by decide),
    (content_header_layout [1, 0, 5, 6]).2.2.2.2.2.1 (by decide),
    (content_header_layout [1]).2.2.1.2 (by decide)⟩

/-! ## The quorum formula -/

/-- C16 (quorum formula). The threshold of the leader is
`q(N) = (2*N)/3 + 1` with floor division, `N = |PublicKeys|`; for every
`N >= 1`: `1 <= q(N) <= N`, `3*q(N) > 2*N`, and `2*q(N) - N >= N/3 + 1`
(without truncation: `N + N/3 + 1 <= 2*q(N)`); and `q(4) = 3`. -/
theorem quorum_formula_is_sound (n : Nat) :
    (∀ c : Consensus, c.quorum = quorumOf c.PublicKeys.length)
    ∧ quorumOf n = (2 * n) / 3 + 1
    ∧ (1 ≤ n →
        1 ≤ quorumOf n ∧ quorumOf n ≤ n
        ∧ 3 * quorumOf n > 2 * n
        ∧ 2 * quorumOf n - n ≥ n / 3 + 1
        ∧ n + n / 3 + 1 ≤ 2 * quorumOf n)
    ∧ quorumOf 4 = 3 := by
  refine ⟨fun c => rfl, ?_, ?_, by decide⟩
  · unfold quorumOf; omega
  · intro h
    unfold quorumOf
    omega

/-- C16 at `N = 4`, the size of the repository's tests: the quorum is 3. -/
theorem quorum_formula_is_sound_witness :
    Sample.leader.PublicKeys.length = 4 ∧ Sample.leader.quorum = 3
      ∧ 1 ≤ quorumOf 4 ∧ quorumOf 4 ≤ 4 ∧ 3 * quorumOf 4 > 2 * 4
      ∧ 2 * quorumOf 4 - 4 ≥ 4 / 3 + 1 ∧ 4 + 4 / 3 + 1 ≤ 2 * quorumOf 4 :=
  ⟨by decide, by decide, (quorum_formula_is_sound 4).2.2.1 (by decide)⟩

/-! ## Invariants of the executions, handler by handler -/

/-- A property that holds on every reset object and is kept by the start of a
round on a reset object and by the two handlers when they return holds on every
reachable object. -/
theorem Reachable.of_handlers (env : Env) (P : Consensus → Prop)
    (hreset : ∀ c : Consensus, P (c.ResetState env))
    (hstart : ∀ (c : Consensus) (b : NewBlock), P c →
      P ((c.ResetState env).startConsensus env b).consensus)
    (hprepare : ∀ (c : Consensus) (m : Message), P c →
      (c.processPrepareMessage env m).fault = false →
      P (c.processPrepareMessage env m).consensus)
    (hcommit : ∀ (c : Consensus) (m : Message), P c →
      (c.processCommitMessage env m).fault = false →
      P (c.processCommitMessage env m).consensus) :
    ∀ c, Reachable env c → P c := by
  intro c h
  induction h with
  | reset c => exact hreset c
  | step c i _ hf ih =>
    cases i with
    | block b =>
      simp only [Consensus.step, Consensus.WaitForNewBlock] at hf ⊢
      by_cases h1 : c.HasEnoughValidators = true
      swap
      · simpa [h1] using ih
      by_cases h2 : c.state = State.Finished
      · simpa [h1, h2] using hstart c b ih
      · simpa [h1, h2] using ih
    | payload bytes =>
      simp only [Consensus.step, Consensus.ProcessMessageLeader] at hf ⊢
      cases ht : (env.Unmarshal bytes).type
      case PREPARE =>
        simp only [ht] at hf ⊢
        exact hprepare c _ ih hf
      case COMMIT =>
        simp only [ht] at hf ⊢
        exact hcommit c _ ih hf
      all_goals simpa [ht] using ih

/-! ## Bounded tallies -/

theorem Consensus.quorum_pos (c : Consensus) : 0 < c.quorum := by
  unfold Consensus.quorum; omega

theorem Consensus.quorum_le (c : Consensus) : c.quorum ≤ c.PublicKeys.length + 1 := by
  unfold Consensus.quorum; omega

theorem Consensus.talliesBounded_prepare (env : Env) (c : Consensus) (m : Message)
    (h : c.talliesBounded) (_ : (c.processPrepareMessage env m).fault = false) :
    (c.processPrepareMessage env m).consensus.talliesBounded := by
  obtain ⟨k1, k2, k3, k4⟩ := h
  rcases processPrepareMessage_cases env c m with hs | hs | ⟨peer, sign, _, _, hn, hl, hs⟩
  · rw [hs.2]; exact ⟨k1, k2, k3, k4⟩
  · rw [hs.2]; exact ⟨k1, k2, k3, k4⟩
  · have hlen : (c.recordPrepare m.senderID sign peer.PubKey).prepareSigs.length
        = c.prepareSigs.length + 1 := SigMap.length_set_of_not_contains _ _ _ hn
    have hrec : (c.recordPrepare m.senderID sign peer.PubKey).talliesBounded := by
      refine ⟨k1, ?_, k3, k4⟩
      rw [hlen]
      exact hl
    rcases hs with ⟨_, hstate, hs⟩ | ⟨_, hs⟩
    · rw [hs]
      refine ⟨by simp [Consensus.announcePrepared], hrec.2.1, ?_, ?_⟩
      · have hlt := k4 hstate
        exact Nat.le_trans (SigMap.length_set_le _ _ _) hlt
      · intro hcontra
        simp [Consensus.announcePrepared, State.toNat] at hcontra
    · rw [hs]; exact hrec

theorem Consensus.talliesBounded_commit (env : Env) (c : Consensus) (m : Message)
    (h : c.talliesBounded) (hf : (c.processCommitMessage env m).fault = false) :
    (c.processCommitMessage env m).consensus.talliesBounded := by
  obtain ⟨k1, k2, k3, k4⟩ := h
  rcases processCommitMessage_cases env c m with hs | hs | ⟨peer, sign, _, _, hn, _, hs⟩
  · rw [hs.2]; exact ⟨k1, k2, k3, k4⟩
  · rw [hs.2]; exact ⟨k1, k2, k3, k4⟩
  · have hlen : (c.recordCommit m.senderID sign peer.PubKey).commitSigs.length
        = c.commitSigs.length + 1 := SigMap.length_set_of_not_contains _ _ _ hn
    rcases hs with ⟨_, _, hs⟩ | ⟨hguard, hs⟩
    · rw [hs] at hf ⊢
      obtain ⟨decoded, agg, _, _, _, hfin⟩ := Consensus.finalize_returns env _ hf
      rw [hfin]
      refine ⟨by simp [Consensus.nextRound, Consensus.ResetState], ?_, ?_, ?_⟩
      · simp [Consensus.nextRound, Consensus.ResetState]
      · simp [Consensus.nextRound, Consensus.ResetState]
      · intro _
        exact Consensus.quorum_pos c
    · rw [hs]
      rw [hlen] at hguard
      have hbelow : c.commitSigs.length + 1 < c.quorum := by
        by_contra hnot
        exact hguard ⟨by omega, k1⟩
      refine ⟨k1, k2, ?_, ?_⟩
      · show (c.recordCommit m.senderID sign peer.PubKey).commitSigs.length ≤ c.quorum
        rw [hlen]; omega
      · intro _
        show (c.recordCommit m.senderID sign peer.PubKey).commitSigs.length < c.quorum
        rw [hlen]; exact hbelow

theorem Reachable.talliesBounded (env : Env) (c : Consensus) (h : Reachable env c) :
    c.talliesBounded := by
  refine Reachable.of_handlers env Consensus.talliesBounded ?_ ?_
    (Consensus.talliesBounded_prepare env) (Consensus.talliesBounded_commit env) c h
  · intro c
    refine ⟨by simp [Consensus.ResetState], ?_, ?_, ?_⟩
    · simp [Consensus.ResetState]
    · simp [Consensus.ResetState]
    · intro _; exact Consensus.quorum_pos c
  · intro c b _
    rcases Consensus.startConsensus_eq env (c.ResetState env) b with
      ⟨_, he⟩ | ⟨enc, msg, _, _, he⟩
    · rw [he]
      refine ⟨by simp [Consensus.ResetState], ?_, ?_, ?_⟩
      · simp [Consensus.ResetState]
      · simp [Consensus.ResetState]
      · intro _; exact Consensus.quorum_pos c
    · rw [he]
      refine ⟨by simp, ?_, ?_, ?_⟩
      · have := Consensus.quorum_pos c
        simp only [Consensus.ResetState, SigMap.set, SigMap.contains, List.any_nil,
          Bool.false_eq_true, if_false, List.nil_append, List.length_singleton]
        exact this
      · simp [Consensus.ResetState]
      · intro _; exact Consensus.quorum_pos c

/-- C15 (bounded tallies). In every leader object reachable from a reset
object by the start of rounds (on a reset object in Finished, as
`WaitForNewBlock` does) and the two handlers, `prepareSigs` and `commitSigs`
each hold at most `|PublicKeys| + 1` entries; they hold in fact no more entries
than the quorum `(2*|PublicKeys|)/3 + 1`. -/
theorem tallies_are_bounded (env : Env) (c : Consensus) (hreach : Reachable env c) :
    c.prepareSigs.length ≤ c.PublicKeys.length + 1
    ∧ c.commitSigs.length ≤ c.PublicKeys.length + 1
    ∧ c.prepareSigs.length ≤ (c.PublicKeys.length * 2) / 3 + 1
    ∧ c.commitSigs.length ≤ (c.PublicKeys.length * 2) / 3 + 1 := by
  obtain ⟨_, k2, k3, _⟩ := Reachable.talliesBounded env c hreach
  have hq := Consensus.quorum_le c
  exact ⟨Nat.le_trans k2 hq, Nat.le_trans k3 hq, k2, k3⟩

/-- C15 on the sample round at its prepare quorum: three prepare signatures and
the leader's commit signature, with four public keys. -/
theorem tallies_are_bounded_witness :
    Reachable Sample.env Sample.quorate
      ∧ Sample.quorate.prepareSigs.length = 3
      ∧ Sample.quorate.commitSigs.length = 1
      ∧ Sample.quorate.prepareSigs.length ≤ Sample.quorate.PublicKeys.length + 1 :=
  have hreach : Reachable Sample.env Sample.quorate :=
    Reachable.of_run Sample.env
      [Input.block Sample.candidate,
       Input.payload (Sample.marshal (Sample.prepare Sample.announced 1 11)),
       Input.payload (Sample.marshal (Sample.prepare Sample.announced 2 12))]
      Sample.leader (Reachable.reset Sample.leader) (by decide)
  ⟨hreach, by decide, by decide, (tallies_are_bounded Sample.env Sample.quorate hreach).1⟩


/-! ## The leader's own signature -/

theorem SigMap.contains_set_of_contains (m : SigMap) (k j : Nat) (v : Sign)
    (h : m.contains j = true) : (m.set k v).contains j = true := by
  rw [SigMap.contains_set, h]; rfl

theorem Consensus.ownEntries_prepare (env : Env) (c : Consensus) (m : Message)
    (h : c.ownEntries) (_ : (c.processPrepareMessage env m).fault = false) :
    (c.processPrepareMessage env m).consensus.ownEntries := by
  obtain ⟨h1, h2⟩ := h
  rcases processPrepareMessage_cases env c m with hs | hs | ⟨peer, sign, _, _, _, _, hs⟩
  · rw [hs.2]; exact ⟨h1, h2⟩
  · rw [hs.2]; exact ⟨h1, h2⟩
  · rcases hs with ⟨_, _, hs⟩ | ⟨_, hs⟩
    · rw [hs]
      constructor
      · intro hstate
        simp [Consensus.announcePrepared] at hstate
      · intro _
        exact SigMap.contains_set_self _ _ _
    · rw [hs]
      constructor
      · intro hstate
        exact SigMap.contains_set_of_contains _ _ _ _ (h1 hstate)
      · exact h2

theorem Consensus.ownEntries_commit (env : Env) (c : Consensus) (m : Message)
    (h : c.ownEntries) (hf : (c.processCommitMessage env m).fault = false) :
    (c.processCommitMessage env m).consensus.ownEntries := by
  obtain ⟨h1, h2⟩ := h
  rcases processCommitMessage_cases env c m with hs | hs | ⟨peer, sign, _, _, _, _, hs⟩
  · rw [hs.2]; exact ⟨h1, h2⟩
  · rw [hs.2]; exact ⟨h1, h2⟩
  · rcases hs with ⟨_, _, hs⟩ | ⟨_, hs⟩
    · rw [hs] at hf ⊢
      obtain ⟨decoded, agg, _, _, _, hfin⟩ := Consensus.finalize_returns env _ hf
      rw [hfin]
      constructor
      · intro hstate
        simp [Consensus.nextRound, Consensus.ResetState] at hstate
      · intro hne
        simp [Consensus.nextRound, Consensus.ResetState] at hne
    · rw [hs]
      constructor
      · exact h1
      · intro hne
        exact SigMap.contains_set_of_contains _ _ _ _ (h2 hne)

theorem Reachable.ownEntries (env : Env) (c : Consensus) (h : Reachable env c) :
    c.ownEntries := by
  refine Reachable.of_handlers env Consensus.ownEntries ?_ ?_
    (Consensus.ownEntries_prepare env) (Consensus.ownEntries_commit env) c h
  · intro c
    constructor
    · intro hstate; simp [Consensus.ResetState] at hstate
    · intro hne; simp [Consensus.ResetState] at hne
  · intro c b _
    rcases Consensus.startConsensus_eq env (c.ResetState env) b with
      ⟨_, he⟩ | ⟨enc, msg, _, _, he⟩
    · rw [he]
      constructor
      · intro hstate; simp [Consensus.ResetState] at hstate
      · intro hne; simp [Consensus.ResetState] at hne
    · rw [he]
      constructor
      · intro _
        exact SigMap.contains_set_self (c.ResetState env).prepareSigs (c.ResetState env).nodeID
          (env.SignHash (c.ResetState env).priKey b.hash)
      · intro hne; simp [Consensus.ResetState] at hne

/-- C14, as stated, fails on the code: in the execution of
`TestProcessMessageLeaderPrepare` the leader, never started on a block and
still in Finished, holds the PREPAREs of validators 1 and 2; the PREPARE of
validator 3 moves it to PreparedDone, and `prepareSigs` has no entry for the
leader's ID. -/
theorem prepared_without_own_signature :
    Reachable Sample.env Sample.afterTwoPrepares
      ∧ Sample.afterTwoPrepares.state = State.Finished
      ∧ (Sample.afterTwoPrepares.processPrepareMessage Sample.env
          (Sample.prepare Sample.leader 3 13)).consensus.state = State.PreparedDone
      ∧ (Sample.afterTwoPrepares.processPrepareMessage Sample.env
          (Sample.prepare Sample.leader 3 13)).consensus.prepareSigs.contains
            Sample.afterTwoPrepares.nodeID = false :=
  ⟨Reachable.of_run Sample.env
      [Input.payload (Sample.marshal (Sample.prepare Sample.leader 1 11)),
       Input.payload (Sample.marshal (Sample.prepare Sample.leader 2 12))]
      Sample.leader (Reachable.reset Sample.leader) (by decide),
    by decide⟩

/-- C14, amended (the leader's own signature at the phase transitions). In
every execution from a reset object: whenever `processPrepareMessage` moves
the state from AnnounceDone, the state `startConsensus` sets, to PreparedDone,
`prepareSigs` holds an entry for the leader's ID; and whenever
`processCommitMessage` broadcasts COMMITTED and returns, `commitSigs` held an
entry for the leader's ID already before the message. Nothing is stated for a
leader that collects the prepare quorum while in Finished. -/
theorem own_signature_at_transitions (env : Env) (c : Consensus) (hreach : Reachable env c)
    (m : Message) :
    (c.state = State.AnnounceDone →
      (c.processPrepareMessage env m).consensus.state = State.PreparedDone →
      c.prepareSigs.contains c.nodeID = true
      ∧ (c.processPrepareMessage env m).consensus.prepareSigs.contains c.nodeID = true)
    ∧ ((∃ e ∈ (c.processCommitMessage env m).out, e.isBroadcastOf MessageType.COMMITTED = true) →
      (c.processCommitMessage env m).fault = false →
      c.commitSigs.contains c.nodeID = true) := by
  obtain ⟨h1, h2⟩ := Reachable.ownEntries env c hreach
  constructor
  · intro hstate _
    have hown := h1 hstate
    refine ⟨hown, ?_⟩
    rcases processPrepareMessage_cases env c m with hs | hs | ⟨peer, sign, _, _, _, _, hs⟩
    · rw [hs.2]; exact hown
    · rw [hs.2]; exact hown
    · rcases hs with ⟨_, _, hs⟩ | ⟨_, hs⟩
      · rw [hs]; exact SigMap.contains_set_of_contains _ _ _ _ hown
      · rw [hs]; exact SigMap.contains_set_of_contains _ _ _ _ hown
  · rintro ⟨e, he, _⟩ hf
    rcases processCommitMessage_cases env c m with hs | hs | ⟨peer, sign, _, _, _, _, hs⟩
    · rw [hs.2] at he; simp at he
    · rw [hs.2] at he; simp at he
    · rcases hs with ⟨_, _, hs⟩ | ⟨_, hs⟩
      · rw [hs] at hf
        obtain ⟨decoded, agg, _, hagg, _, _⟩ := Consensus.finalize_returns env _ hf
        have hc : c.aggregatedPrepareSig = some agg := hagg
        exact h2 (by rw [hc]; simp)
      · rw [hs] at he; simp at he

/-- C14, amended, on the sample round started by `startConsensus`: the PREPARE
of validator 2 moves the leader from AnnounceDone to PreparedDone, and the
leader's entry is in `prepareSigs`. -/
theorem own_signature_at_transitions_witness :
    Reachable Sample.env
        (Sample.announced.processPrepareMessage Sample.env
          (Sample.prepare Sample.announced 1 11)).consensus
      ∧ (Sample.announced.processPrepareMessage Sample.env
          (Sample.prepare Sample.announced 1 11)).consensus.state = State.AnnounceDone
      ∧ Sample.quorate.state = State.PreparedDone
      ∧ Sample.quorate.prepareSigs.contains Sample.quorate.nodeID = true :=
  have hreach : Reachable Sample.env
      (Sample.announced.processPrepareMessage Sample.env
        (Sample.prepare Sample.announced 1 11)).consensus :=
    Reachable.of_run Sample.env
      [Input.block Sample.candidate,
       Input.payload (Sample.marshal (Sample.prepare Sample.announced 1 11))]
      Sample.leader (Reachable.reset Sample.leader) (by decide)
  ⟨hreach, by decide, by decide,
    ((own_signature_at_transitions Sample.env _ hreach
      (Sample.prepare Sample.announced 2 12)).1 (by decide) (by decide)).2⟩

/-! ## Decode failure at finalization -/

/-- C11 (decode failure at finalization). When a valid COMMIT from a validator
of the view brings `commitSigs` to the quorum in a state other than
CommittedDone and the stored block bytes do not decode, `processCommitMessage`
sends exactly two things, in this order: the COMMITTED broadcast for the
current `consensusID` (lines 260-264, before the decoding) and the log line of
line 269. No block is offered on `VerifiedNewBlock`: the call ends at line 273
in the fault of `Header()` on the undecoded block, with the state and
`consensusID` as they were. -/
theorem decode_failure_publishes_nothing (env : Env) (c : Consensus) (m : Message) (peer : Peer)
    (sign : Sign) (hpeer : c.getValidatorPeerByID m.senderID = some peer)
    (hvalid : c.validCommit env m peer sign)
    (hnew : c.commitSigs.contains m.senderID = false)
    (hlt : c.commitSigs.length < (c.PublicKeys.length * 2) / 3 + 1)
    (hq : (c.PublicKeys.length * 2) / 3 + 1 ≤ c.commitSigs.length + 1)
    (hstate : c.state ≠ State.CommittedDone)
    (hdec : env.DecodeBytes c.block = none) :
    (∃ msg, (c.processCommitMessage env m).out
          = [Effect.broadcast env.UseLibP2P msg, Effect.log decodeFailureText]
        ∧ msg.type = MessageType.COMMITTED
        ∧ msg.consensusID = c.consensusID)
    ∧ (c.processCommitMessage env m).out.filterMap Effect.publishedBlock = []
    ∧ (∀ b, Effect.verifiedNewBlock b ∉ (c.processCommitMessage env m).out)
    ∧ (c.processCommitMessage env m).fault = true
    ∧ (c.processCommitMessage env m).consensus.state = c.state
    ∧ (c.processCommitMessage env m).consensus.consensusID = c.consensusID := by
  have hlt2 : c.commitSigs.length < c.quorum := hlt
  have hq2 : c.quorum ≤ c.commitSigs.length + 1 := hq
  have hdec2 : env.DecodeBytes (c.recordCommit m.senderID sign peer.PubKey).block = none := hdec
  rw [processCommitMessage_of_valid env c m peer sign hpeer hvalid hnew hlt2,
    if_pos ⟨hq2, hstate⟩, Consensus.finalize_of_no_block env _ hdec2]
  refine ⟨⟨_, rfl, ?_, ?_⟩, ?_, ?_, rfl, rfl, rfl⟩
  · simp [Consensus.constructCommittedMessage, Consensus.signed]
  · simp [Consensus.constructCommittedMessage, Consensus.signed, Consensus.recordCommit]
  · simp [Effect.publishedBlock]
  · intro b hb
    simp at hb

/-- C11 on a leader that was never handed a block: it reaches PreparedDone on
the three PREPAREs of the sample and holds the COMMIT of validator 1; its
stored block bytes are empty and do not decode. The COMMIT of validator 2
reaches the quorum of 3: no block is offered, and the call ends in the
fault. -/
theorem decode_failure_publishes_nothing_witness :
    Reachable Sample.env Sample.afterOneCommit
      ∧ Sample.afterOneCommit.state = State.PreparedDone
      ∧ Sample.afterOneCommit.commitSigs.length = 2
      ∧ Sample.env.DecodeBytes Sample.afterOneCommit.block = none
      ∧ Sample.afterOneCommit.validCommit Sample.env
          (Sample.commit Sample.afterThreePrepares 2 12) ⟨12⟩ [12, 5, 142]
      ∧ (Sample.afterOneCommit.processCommitMessage Sample.env
          (Sample.commit Sample.afterThreePrepares 2 12)).out.filterMap Effect.publishedBlock
          = []
      ∧ (Sample.afterOneCommit.processCommitMessage Sample.env
          (Sample.commit Sample.afterThreePrepares 2 12)).fault = true :=
  ⟨Reachable.of_run Sample.env
      [Input.payload (Sample.marshal (Sample.prepare Sample.leader 1 11)),
       Input.payload (Sample.marshal (Sample.prepare Sample.leader 2 12)),
       Input.payload (Sample.marshal (Sample.prepare Sample.leader 3 13)),
       Input.payload (Sample.marshal (Sample.commit Sample.afterThreePrepares 1 11))]
      Sample.leader (Reachable.reset Sample.leader) (by decide),
    by decide, by decide, by decide, by decide,
    (decode_failure_publishes_nothing Sample.env Sample.afterOneCommit
      (Sample.commit Sample.afterThreePrepares 2 12) ⟨12⟩ [12, 5, 142] (by decide) (by decide)
      (by decide) (by decide) (by decide) (by decide) (by decide)).2.1,
    (decode_failure_publishes_nothing Sample.env Sample.afterOneCommit
      (Sample.commit Sample.afterThreePrepares 2 12) ⟨12⟩ [12, 5, 142] (by decide) (by decide)
      (by decide) (by decide) (by decide) (by decide) (by decide)).2.2.2.1⟩

end Harmony
